import Mathlib

/-!
# Learning platform: expansion tracker, persistence controller, sync status

A shallow embedding of `app_js.js` (the `LearningPlatform` component): the
values the component stores, the runtime objects it calls (`Set`, `JSON`,
`localStorage`, timers) and its own functions `toggleSection`, `saveData`,
the load-on-start effect and the auto-save effect.
-/

/-! ## Runtime values -/

/-- A runtime value of the component's data. A number is written exactly, in
decimal: `num n` is the integer `n` (as `progress` and `totalDocuments` are),
`frac m e` is the number `m / 10 ^ e` when it is not an integer, with `e ≥ 1`
and `m` not a multiple of ten. Objects keep their own properties as a list of
key/value pairs in enumeration order. -/
inductive JSVal where
  | undefined
  | null
  | bool (b : Bool)
  | num (n : Int)
  | frac (m : Int) (e : Nat)
  | str (s : String)
  | arr (xs : List JSVal)
  | obj (kvs : List (String × JSVal))
  deriving Repr, Inhabited

namespace JSVal

mutual
/-- Decision procedure for equality of values. -/
def decEqVal : (a b : JSVal) → Decidable (a = b)
  | undefined, undefined => isTrue rfl
  | null, null => isTrue rfl
  | bool a, bool b =>
    if h : a = b then isTrue (by rw [h]) else isFalse (by intro e; cases e; exact h rfl)
  | num a, num b =>
    if h : a = b then isTrue (by rw [h]) else isFalse (by intro e; cases e; exact h rfl)
  | frac a c, frac b d =>
    if h : a = b then
      if h2 : c = d then isTrue (by rw [h, h2])
      else isFalse (by intro e; cases e; exact h2 rfl)
    else isFalse (by intro e; cases e; exact h rfl)
  | str a, str b =>
    if h : a = b then isTrue (by rw [h]) else isFalse (by intro e; cases e; exact h rfl)
  | arr a, arr b =>
    match decEqList a b with
    | isTrue h => isTrue (by rw [h])
    | isFalse h => isFalse (by intro e; cases e; exact h rfl)
  | obj a, obj b =>
    match decEqFields a b with
    | isTrue h => isTrue (by rw [h])
    | isFalse h => isFalse (by intro e; cases e; exact h rfl)
  | undefined, null => isFalse (by intro e; cases e)
  | undefined, bool _ => isFalse (by intro e; cases e)
  | undefined, num _ => isFalse (by intro e; cases e)
  | undefined, frac _ _ => isFalse (by intro e; cases e)
  | undefined, str _ => isFalse (by intro e; cases e)
  | undefined, arr _ => isFalse (by intro e; cases e)
  | undefined, obj _ => isFalse (by intro e; cases e)
  | null, undefined => isFalse (by intro e; cases e)
  | null, bool _ => isFalse (by intro e; cases e)
  | null, num _ => isFalse (by intro e; cases e)
  | null, frac _ _ => isFalse (by intro e; cases e)
  | null, str _ => isFalse (by intro e; cases e)
  | null, arr _ => isFalse (by intro e; cases e)
  | null, obj _ => isFalse (by intro e; cases e)
  | bool _, undefined => isFalse (by intro e; cases e)
  | bool _, null => isFalse (by intro e; cases e)
  | bool _, num _ => isFalse (by intro e; cases e)
  | bool _, frac _ _ => isFalse (by intro e; cases e)
  | bool _, str _ => isFalse (by intro e; cases e)
  | bool _, arr _ => isFalse (by intro e; cases e)
  | bool _, obj _ => isFalse (by intro e; cases e)
  | num _, undefined => isFalse (by intro e; cases e)
  | num _, null => isFalse (by intro e; cases e)
  | num _, bool _ => isFalse (by intro e; cases e)
  | num _, frac _ _ => isFalse (by intro e; cases e)
  | num _, str _ => isFalse (by intro e; cases e)
  | num _, arr _ => isFalse (by intro e; cases e)
  | num _, obj _ => isFalse (by intro e; cases e)
  | frac _ _, undefined => isFalse (by intro e; cases e)
  | frac _ _, null => isFalse (by intro e; cases e)
  | frac _ _, bool _ => isFalse (by intro e; cases e)
  | frac _ _, num _ => isFalse (by intro e; cases e)
  | frac _ _, str _ => isFalse (by intro e; cases e)
  | frac _ _, arr _ => isFalse (by intro e; cases e)
  | frac _ _, obj _ => isFalse (by intro e; cases e)
  | str _, undefined => isFalse (by intro e; cases e)
  | str _, null => isFalse (by intro e; cases e)
  | str _, bool _ => isFalse (by intro e; cases e)
  | str _, num _ => isFalse (by intro e; cases e)
  | str _, frac _ _ => isFalse (by intro e; cases e)
  | str _, arr _ => isFalse (by intro e; cases e)
  | str _, obj _ => isFalse (by intro e; cases e)
  | arr _, undefined => isFalse (by intro e; cases e)
  | arr _, null => isFalse (by intro e; cases e)
  | arr _, bool _ => isFalse (by intro e; cases e)
  | arr _, num _ => isFalse (by intro e; cases e)
  | arr _, frac _ _ => isFalse (by intro e; cases e)
  | arr _, str _ => isFalse (by intro e; cases e)
  | arr _, obj _ => isFalse (by intro e; cases e)
  | obj _, undefined => isFalse (by intro e; cases e)
  | obj _, null => isFalse (by intro e; cases e)
  | obj _, bool _ => isFalse (by intro e; cases e)
  | obj _, num _ => isFalse (by intro e; cases e)
  | obj _, frac _ _ => isFalse (by intro e; cases e)
  | obj _, str _ => isFalse (by intro e; cases e)
  | obj _, arr _ => isFalse (by intro e; cases e)
/-- Decision procedure for equality of lists of values. -/
def decEqList : (a b : List JSVal) → Decidable (a = b)
  | [], [] => isTrue rfl
  | [], _ :: _ => isFalse (by intro e; cases e)
  | _ :: _, [] => isFalse (by intro e; cases e)
  | x :: xs, y :: ys =>
    match decEqVal x y, decEqList xs ys with
    | isTrue h, isTrue h2 => isTrue (by rw [h, h2])
    | isFalse h, _ => isFalse (by intro e; cases e; exact h rfl)
    | _, isFalse h => isFalse (by intro e; cases e; exact h rfl)
/-- Decision procedure for equality of property lists. -/
def decEqFields : (a b : List (String × JSVal)) → Decidable (a = b)
  | [], [] => isTrue rfl
  | [], _ :: _ => isFalse (by intro e; cases e)
  | _ :: _, [] => isFalse (by intro e; cases e)
  | (k, x) :: xs, (l, y) :: ys =>
    if hk : k = l then
      match decEqVal x y, decEqFields xs ys with
      | isTrue h, isTrue h2 => isTrue (by rw [hk, h, h2])
      | isFalse h, _ => isFalse (by intro e; cases e; exact h rfl)
      | _, isFalse h => isFalse (by intro e; cases e; exact h rfl)
    else isFalse (by intro e; cases e; exact hk rfl)
end

instance : DecidableEq JSVal := decEqVal

end JSVal

/-! ## The runtime `Set` -/

/-- A runtime `Set`: its members in insertion order, each once. Members are
compared by value (the ids stored by the component are strings). -/
structure JSSet where
  elems : List JSVal
  nodup : elems.Nodup

namespace JSSet

instance : DecidableEq JSSet := fun a b =>
  if h : a.elems = b.elems then isTrue (by cases a; cases b; cases h; rfl)
  else isFalse (by intro e; exact h (by rw [e]))

/-- The empty set, `new Set()`. -/
def empty : JSSet := ⟨[], List.nodup_nil⟩

/-- Membership test, `set.has(x)`. -/
def has (s : JSSet) (x : JSVal) : Bool := decide (x ∈ s.elems)

/-- Insertion, `set.add(x)`: a member already present keeps its place, a new one
goes last. -/
def add (s : JSSet) (x : JSVal) : JSSet :=
  if h : x ∈ s.elems then s
  else ⟨s.elems ++ [x], by
    rw [List.nodup_append]
    refine ⟨s.nodup, List.nodup_singleton x, ?_⟩
    intro a ha hb
    rw [List.mem_singleton] at hb
    exact h (hb ▸ ha)⟩

/-- Removal, `set.delete(x)`. -/
def delete (s : JSSet) (x : JSVal) : JSSet :=
  ⟨s.elems.erase x, s.nodup.erase x⟩

/-- Construction from an iterable, `new Set(xs)`: the elements are added one by
one in iteration order. -/
def ofList (xs : List JSVal) : JSSet := xs.foldl add empty

/-- Enumeration in insertion order, `Array.from(set)`. -/
def toArray (s : JSSet) : List JSVal := s.elems

end JSSet

/-! ## The expansion tracker -/

/-- The updater passed to `setExpandedSections` by `toggleSection(sectionId)`:
copy the previous set, then delete the id if the copy has it, else add it. -/
def toggleSection (sectionId : JSVal) (prev : JSSet) : JSSet :=
  let newSet := JSSet.ofList prev.toArray
  if newSet.has sectionId then newSet.delete sectionId else newSet.add sectionId

/-- A sequence of `toggleSection` calls: React applies the queued updaters in
call order, each to the result of the one before. -/
def toggleAll (ids : List JSVal) (s : JSSet) : JSSet :=
  ids.foldl (fun acc i => toggleSection i acc) s

/-! ## Truthiness, property reads, iteration -/

/-- An exception thrown by the runtime. -/
inductive JSError where
  | typeError
  | syntaxError
  | quotaExceeded
  deriving DecidableEq, Repr

instance instDecidableEqExcept {ε α : Type} [DecidableEq ε] [DecidableEq α] :
    DecidableEq (Except ε α)
  | Except.ok a, Except.ok b =>
    if h : a = b then isTrue (by rw [h]) else isFalse (by intro e; cases e; exact h rfl)
  | Except.error a, Except.error b =>
    if h : a = b then isTrue (by rw [h]) else isFalse (by intro e; cases e; exact h rfl)
  | Except.ok _, Except.error _ => isFalse (by intro e; cases e)
  | Except.error _, Except.ok _ => isFalse (by intro e; cases e)

namespace JSVal

/-- Truthiness of a value (`ToBoolean`): `undefined`, `null`, `false`, zero and
the empty string are falsy, everything else is truthy. -/
def truthy : JSVal → Bool
  | undefined => false
  | null => false
  | bool b => b
  | num n => decide (n ≠ 0)
  | frac m _ => decide (m ≠ 0)
  | str s => decide (s ≠ "")
  | arr _ => true
  | obj _ => true

/-- The operator `a || b`: `a` when it is truthy, else `b`. -/
def orElse (a b : JSVal) : JSVal := if a.truthy then a else b

/-- Own property lookup in a property list. -/
def lookupField (name : String) : List (String × JSVal) → JSVal
  | [] => undefined
  | (k, v) :: rest => if k = name then v else lookupField name rest

/-- The property read `v.name`, for a name that no built-in prototype defines
(the component reads `courses`, `selectedCourse`, `expandedSections` and
`lastSync`): a `TypeError` on `null` and `undefined`, the own property of an
object, `undefined` on every other value. -/
def getProp (v : JSVal) (name : String) : Except JSError JSVal :=
  match v with
  | undefined => Except.error JSError.typeError
  | null => Except.error JSError.typeError
  | obj kvs => Except.ok (lookupField name kvs)
  | _ => Except.ok undefined

end JSVal

/-- The constructor call `new Set(v)`: no members for `undefined` and `null`,
the elements of an array, the characters of a string, and a `TypeError` for a
value that is not iterable. -/
def JSSet.construct : JSVal → Except JSError JSSet
  | JSVal.undefined => Except.ok JSSet.empty
  | JSVal.null => Except.ok JSSet.empty
  | JSVal.arr xs => Except.ok (JSSet.ofList xs)
  | JSVal.str s => Except.ok (JSSet.ofList (s.data.map fun c => JSVal.str (String.singleton c)))
  | _ => Except.error JSError.typeError

/-! ## Objects and their property order -/

namespace JSObject

/-- The array index a property key denotes, if any: a decimal numeral without
a leading zero whose value is below `2^32 - 1`. -/
def arrayIndex (k : String) : Option Nat :=
  let cs := k.data
  if cs ≠ [] ∧ cs.all Char.isDigit = true ∧ (cs = ['0'] ∨ cs.head? ≠ some '0') then
    let n := cs.foldl (fun a c => 10 * a + (c.toNat - 48)) 0
    if n < 2 ^ 32 - 1 then some n else none
  else none

/-- Placement of a new array-index key `k` with index `n`: after the index keys
below it, before everything else. -/
def insertIndex (n : Nat) (k : String) (v : JSVal) :
    List (String × JSVal) → List (String × JSVal)
  | [] => [(k, v)]
  | p :: ps =>
    match arrayIndex p.1 with
    | some m => if m < n then p :: insertIndex n k v ps else (k, v) :: p :: ps
    | none => (k, v) :: p :: ps

/-- Definition of the property `k` with value `v` on an object whose own
properties are `o` in enumeration order: an existing key keeps its place and
takes the new value; a new array-index key goes among the index keys in
ascending order; any other new key goes last. -/
def define (o : List (String × JSVal)) (k : String) (v : JSVal) : List (String × JSVal) :=
  if o.any (fun p => decide (p.1 = k)) then
    o.map (fun p => if p.1 = k then (k, v) else p)
  else
    match arrayIndex k with
    | some n => insertIndex n k v o
    | none => o ++ [(k, v)]

/-- The own properties, in enumeration order, of the object obtained by
defining the given entries one after the other on an empty object (an object
literal, or the members of a JSON object text). -/
def ofEntries (entries : List (String × JSVal)) : List (String × JSVal) :=
  entries.foldl (fun o p => define o p.1 p.2) []

/-- The call `Object.values(v)` on an object. -/
def values (o : List (String × JSVal)) : List JSVal := o.map Prod.snd

/-- The call `Object.keys(v)` on an object. -/
def keys (o : List (String × JSVal)) : List String := o.map Prod.fst

end JSObject

/-! ## JSON text

`JSON.stringify` and `JSON.parse` on the values above. A numeral is read as
the exact decimal number it writes; the runtime holds the nearest double, which
is the same number for the integers below `2 ^ 53` and for the decimals of up
to 15 significant digits. -/

namespace JSON

/-- The decimal digit character of `d < 10`. -/
def digitChar (d : Nat) : Char := Char.ofNat (48 + d)

/-- Decimal digits of `n`, most significant first, in front of `acc`. -/
def natDigitsAux : Nat → Nat → List Char → List Char
  | 0, _, acc => acc
  | fuel + 1, n, acc =>
    if n < 10 then digitChar n :: acc
    else natDigitsAux fuel (n / 10) (digitChar (n % 10) :: acc)

/-- The decimal numeral of a natural number. -/
def natDigits (n : Nat) : List Char := natDigitsAux (n + 1) n []

/-- The numeral of an integer. -/
def serNum (n : Int) : List Char :=
  if n < 0 then '-' :: natDigits n.natAbs else natDigits n.natAbs

/-- The numeral of the fraction `m / 10 ^ e`: digits around a point, or, below
`0.000001`, a mantissa and a negative exponent. -/
def serFrac (m : Int) (e : Nat) : List Char :=
  let ds := natDigits m.natAbs
  let sign : List Char := if m < 0 then ['-'] else []
  if e = 0 then serNum m
  else if e < ds.length then
    sign ++ (ds.take (ds.length - e) ++ ('.' :: ds.drop (ds.length - e)))
  else if e - ds.length < 6 then
    sign ++ ('0' :: '.' :: (List.replicate (e - ds.length) '0' ++ ds))
  else
    match ds with
    | [] => sign
    | [d] => sign ++ (d :: 'e' :: '-' :: natDigits (e - ds.length + 1))
    | d :: rest =>
      sign ++ (d :: '.' :: (rest ++ ('e' :: '-' :: natDigits (e - ds.length + 1))))

/-- A lower-case hexadecimal digit. -/
def hexDigit (d : Nat) : Char := if d < 10 then Char.ofNat (48 + d) else Char.ofNat (87 + d)

/-- The text of one character inside a string literal: the quote, the backslash
and the control characters are escaped, every other character stands for
itself. -/
def quoteChar (c : Char) : List Char :=
  if c = '"' then ['\\', '"']
  else if c = '\\' then ['\\', '\\']
  else if c = '\x08' then ['\\', 'b']
  else if c = '\t' then ['\\', 't']
  else if c = '\n' then ['\\', 'n']
  else if c = '\x0c' then ['\\', 'f']
  else if c = '\r' then ['\\', 'r']
  else if c.toNat < 32 then ['\\', 'u', '0', '0', hexDigit (c.toNat / 16), hexDigit (c.toNat % 16)]
  else [c]

/-- The characters of a string literal between its quotes. -/
def quoteChars : List Char → List Char
  | [] => []
  | c :: cs => quoteChar c ++ quoteChars cs

/-- A string literal. -/
def quote (s : String) : List Char := '"' :: (quoteChars s.data ++ ['"'])

mutual
/-- The text of a value. `undefined` has no text: an array writes `null` in its
place and an object leaves the property out. -/
def serVal : JSVal → List Char
  | JSVal.undefined => []
  | JSVal.null => ['n', 'u', 'l', 'l']
  | JSVal.bool true => ['t', 'r', 'u', 'e']
  | JSVal.bool false => ['f', 'a', 'l', 's', 'e']
  | JSVal.num n => serNum n
  | JSVal.frac m e => serFrac m e
  | JSVal.str s => quote s
  | JSVal.arr xs => '[' :: (serElems true xs ++ [']'])
  | JSVal.obj kvs => '\x7b' :: (serFields true kvs ++ ['\x7d'])
/-- The elements of an array, separated by commas; `first` tells that no
element has been written yet. -/
def serElems : Bool → List JSVal → List Char
  | _, [] => []
  | first, x :: xs =>
    (if first then [] else [',']) ++
      ((if x = JSVal.undefined then ['n', 'u', 'l', 'l'] else serVal x) ++ serElems false xs)
/-- The members of an object, separated by commas; a property whose value is
`undefined` is left out. -/
def serFields : Bool → List (String × JSVal) → List Char
  | _, [] => []
  | first, (k, v) :: rest =>
    if v = JSVal.undefined then serFields first rest
    else (if first then [] else [',']) ++ (quote k ++ (':' :: (serVal v ++ serFields false rest)))
end

/-- Removal of leading white space. -/
def skipWs : List Char → List Char
  | [] => []
  | c :: cs => if c = ' ' ∨ c = '\t' ∨ c = '\n' ∨ c = '\r' then skipWs cs else c :: cs

/-- The value of a hexadecimal digit. -/
def hexVal (c : Char) : Option Nat :=
  if 48 ≤ c.toNat ∧ c.toNat ≤ 57 then some (c.toNat - 48)
  else if 97 ≤ c.toNat ∧ c.toNat ≤ 102 then some (c.toNat - 87)
  else if 65 ≤ c.toNat ∧ c.toNat ≤ 70 then some (c.toNat - 55)
  else none

/-- The code unit written by four hexadecimal digits. -/
def hex4 (a b c d : Char) : Option Nat :=
  match hexVal a, hexVal b, hexVal c, hexVal d with
  | some x, some y, some z, some w => some (((x * 16 + y) * 16 + z) * 16 + w)
  | _, _, _, _ => none

/-- The character of a `\u` escape with code unit `u`, and the text left after
it. A high surrogate followed by the escape of a low surrogate is one
character; a surrogate on its own has no character here and reads as U+FFFD. -/
def unicodeEscape (u : Nat) (rest : List Char) : Char × List Char :=
  if 0xD800 ≤ u ∧ u < 0xDC00 then
    match rest with
    | e1 :: e2 :: a :: b :: c :: d :: rest2 =>
      if e1 = '\\' ∧ e2 = 'u' then
        match hex4 a b c d with
        | some l =>
          if 0xDC00 ≤ l ∧ l < 0xE000 then
            (Char.ofNat (0x10000 + (u - 0xD800) * 0x400 + (l - 0xDC00)), rest2)
          else (Char.ofNat 0xFFFD, rest)
        | none => (Char.ofNat 0xFFFD, rest)
      else (Char.ofNat 0xFFFD, rest)
    | _ => (Char.ofNat 0xFFFD, rest)
  else if 0xDC00 ≤ u ∧ u < 0xE000 then (Char.ofNat 0xFFFD, rest)
  else (Char.ofNat u, rest)

/-- The character of a one-letter escape. -/
def simpleEscape (e : Char) : Option Char :=
  if e = '"' then some '"'
  else if e = '\\' then some '\\'
  else if e = '/' then some '/'
  else if e = 'b' then some '\x08'
  else if e = 'f' then some '\x0c'
  else if e = 'n' then some '\n'
  else if e = 'r' then some '\r'
  else if e = 't' then some '\t'
  else none

/-- Reading of a string literal after its opening quote, with `fuel` bounding
the number of characters read: the characters of the string and the text after
the closing quote. -/
def parseStrBody : Nat → List Char → Option (List Char × List Char)
  | 0, _ => none
  | _ + 1, [] => none
  | fuel + 1, c :: cs =>
    if c = '"' then some ([], cs)
    else if c = '\\' then
      match cs with
      | [] => none
      | e :: rest =>
        if e = 'u' then
          match rest with
          | a :: b :: x :: d :: rest2 =>
            match hex4 a b x d with
            | some u =>
              match parseStrBody fuel (unicodeEscape u rest2).2 with
              | some (s, r) => some ((unicodeEscape u rest2).1 :: s, r)
              | none => none
            | none => none
          | _ => none
        else
          match simpleEscape e with
          | some ch =>
            match parseStrBody fuel rest with
            | some (s, r) => some (ch :: s, r)
            | none => none
          | none => none
    else if c.toNat < 32 then none
    else
      match parseStrBody fuel cs with
      | some (s, r) => some (c :: s, r)
      | none => none

/-- The leading decimal digits of a text and what follows them. -/
def spanDigits : List Char → List Char × List Char
  | [] => ([], [])
  | c :: cs =>
    if c.isDigit then ((spanDigits cs).1.cons c, (spanDigits cs).2) else ([], c :: cs)

/-- The number written by a list of decimal digits. -/
def digitsValue (ds : List Char) : Nat := ds.foldl (fun a c => 10 * a + (c.toNat - 48)) 0

/-- Reading of the integer part of a numeral: one or more digits, without a
leading zero. -/
def parseNat (cs : List Char) : Option (Nat × List Char) :=
  match spanDigits cs with
  | ([], _) => none
  | (d :: ds, rest) =>
    if d = '0' ∧ ds ≠ [] then none else some (digitsValue (d :: ds), rest)

/-- Reading of the optional fraction of a numeral: a point and one or more
digits. The result is the digits read, none when there is no fraction. -/
def parseFraction (cs : List Char) : Option (List Char × List Char) :=
  match cs with
  | [] => some ([], [])
  | c :: rest =>
    if c = '.' then
      match spanDigits rest with
      | ([], _) => none
      | (d :: ds, r) => some (d :: ds, r)
    else some ([], c :: rest)

/-- Reading of one or more digits of an exponent. -/
def parseExpDigits (cs : List Char) : Option (Nat × List Char) :=
  match spanDigits cs with
  | ([], _) => none
  | (d :: ds, r) => some (digitsValue (d :: ds), r)

/-- Reading of the optional exponent of a numeral: `e` or `E`, an optional
sign, and one or more digits. The result is the exponent, 0 when there is
none. -/
def parseExponent (cs : List Char) : Option (Int × List Char) :=
  match cs with
  | [] => some (0, [])
  | c :: rest =>
    if c = 'e' ∨ c = 'E' then
      match rest with
      | [] => none
      | s :: rest2 =>
        if s = '+' then (parseExpDigits rest2).map fun p => ((p.1 : Int), p.2)
        else if s = '-' then (parseExpDigits rest2).map fun p => (-(p.1 : Int), p.2)
        else (parseExpDigits (s :: rest2)).map fun p => ((p.1 : Int), p.2)
    else some (0, c :: rest)

/-- Removal of the trailing zeros of `m` in `m / 10 ^ e`: the pair of the new
`m` and the new `e`. -/
def stripZeros : Nat → Nat → Nat × Nat
  | 0, m => (m, 0)
  | e + 1, m => if m % 10 = 0 then stripZeros e (m / 10) else (m, e + 1)

/-- The integer `n` with its sign. -/
def signed (neg : Bool) (n : Nat) : Int := if neg then -(n : Int) else (n : Int)

/-- The value of the numeral with sign `neg`, digits `mant` and decimal exponent
`exp`, that is `mant * 10 ^ exp`: an integer when it is one, else a fraction in
lowest terms; a number so small that the nearest double is zero, that is at
most `2 ^ -1075` (which needs more than 323 decimal places), is zero. -/
def decimalValue (neg : Bool) (mant : Nat) (exp : Int) : JSVal :=
  if mant = 0 then JSVal.num 0
  else if 0 ≤ exp then JSVal.num (signed neg (mant * 10 ^ exp.toNat))
  else
    match stripZeros (-exp).toNat mant with
    | (m, 0) => JSVal.num (signed neg m)
    | (m, e + 1) =>
      if 324 ≤ e + 1 ∧ m * (2 ^ 215) ^ 5 ≤ 10 ^ (e + 1) then JSVal.num 0
      else JSVal.frac (signed neg m) (e + 1)

/-- Reading of an unsigned numeral: integer part, optional fraction, optional
exponent. -/
def parseNumber (neg : Bool) (cs : List Char) : Option (JSVal × List Char) :=
  match parseNat cs with
  | none => none
  | some (i, r1) =>
    match parseFraction r1 with
    | none => none
    | some (fs, r2) =>
      match parseExponent r2 with
      | none => none
      | some (x, r3) =>
        some (decimalValue neg (i * 10 ^ fs.length + digitsValue fs) (x - (fs.length : Int)),
          r3)

/-- Reading of the fixed word `w` at the head of a text. -/
def dropWord (w : List Char) (cs : List Char) : Option (List Char) :=
  if w.isPrefixOf cs then some (cs.drop w.length) else none

mutual
/-- Reading of one value, white space before it allowed. -/
def parseValue : Nat → List Char → Option (JSVal × List Char)
  | 0, _ => none
  | fuel + 1, cs =>
    match skipWs cs with
    | [] => none
    | c :: rest =>
      if c = 'n' then (dropWord ['u', 'l', 'l'] rest).map fun r => (JSVal.null, r)
      else if c = 't' then (dropWord ['r', 'u', 'e'] rest).map fun r => (JSVal.bool true, r)
      else if c = 'f' then (dropWord ['a', 'l', 's', 'e'] rest).map fun r => (JSVal.bool false, r)
      else if c = '"' then
        (parseStrBody (rest.length + 1) rest).map fun p => (JSVal.str (String.mk p.1), p.2)
      else if c = '[' then
        match skipWs rest with
        | [] => none
        | c2 :: rest2 =>
          if c2 = ']' then some (JSVal.arr [], rest2)
          else (parseElems fuel rest).map fun p => (JSVal.arr p.1, p.2)
      else if c = '\x7b' then
        match skipWs rest with
        | [] => none
        | c2 :: rest2 =>
          if c2 = '\x7d' then some (JSVal.obj [], rest2)
          else (parseMembers fuel rest).map fun p => (JSVal.obj (JSObject.ofEntries p.1), p.2)
      else if c = '-' then parseNumber true rest
      else parseNumber false (c :: rest)
/-- Reading of the elements of a non-empty array up to its closing bracket. -/
def parseElems : Nat → List Char → Option (List JSVal × List Char)
  | 0, _ => none
  | fuel + 1, cs =>
    match parseValue fuel cs with
    | none => none
    | some (v, r) =>
      match skipWs r with
      | [] => none
      | c :: r2 =>
        if c = ',' then (parseElems fuel r2).map fun p => (v :: p.1, p.2)
        else if c = ']' then some ([v], r2)
        else none
/-- Reading of the members of a non-empty object up to its closing brace, in
the order of the text. -/
def parseMembers : Nat → List Char → Option (List (String × JSVal) × List Char)
  | 0, _ => none
  | fuel + 1, cs =>
    match skipWs cs with
    | [] => none
    | q :: afterQ =>
      if q = '"' then
        match parseStrBody (afterQ.length + 1) afterQ with
        | none => none
        | some (k, r0) =>
          match skipWs r0 with
          | [] => none
          | colon :: r1 =>
            if colon = ':' then
              match parseValue fuel r1 with
              | none => none
              | some (v, r) =>
                match skipWs r with
                | [] => none
                | c :: r2 =>
                  if c = ',' then
                    (parseMembers fuel r2).map fun p => ((String.mk k, v) :: p.1, p.2)
                  else if c = '\x7d' then some ([(String.mk k, v)], r2)
                  else none
            else none
      else none
end

/-- The call `JSON.parse(text)`: one value, white space around it allowed, and
a `SyntaxError` for any other text. -/
def parse (text : String) : Except JSError JSVal :=
  match parseValue (2 * text.data.length + 2) text.data with
  | some (v, rest) =>
    if skipWs rest = [] then Except.ok v else Except.error JSError.syntaxError
  | none => Except.error JSError.syntaxError

/-- The call `JSON.stringify(v)`: `none` stands for the result `undefined`. -/
def stringify (v : JSVal) : Option String :=
  if v = JSVal.undefined then none else some (String.mk (serVal v))

end JSON

/-! ## Local storage -/

/-- The browser's `localStorage`: its entries, and the number of characters it
can hold before `setItem` throws. -/
structure LocalStorage where
  items : List (String × String)
  quota : Nat
  deriving DecidableEq, Repr

namespace LocalStorage

/-- The call `localStorage.getItem(key)`: `none` stands for `null`. -/
def getItem (ls : LocalStorage) (key : String) : Option String :=
  match ls.items.find? (fun p => decide (p.1 = key)) with
  | some p => some p.2
  | none => none

/-- The entries after storing `value` under `key`. -/
def put (key value : String) : List (String × String) → List (String × String)
  | [] => [(key, value)]
  | p :: ps => if p.1 = key then (key, value) :: ps else p :: put key value ps

/-- The number of characters held by a list of entries. -/
def size (items : List (String × String)) : Nat :=
  (items.map fun p => p.1.length + p.2.length).sum

/-- The call `localStorage.setItem(key, value)`: the entry is stored, or the
call throws when the storage cannot hold it. -/
def setItem (ls : LocalStorage) (key value : String) : Except JSError LocalStorage :=
  if size (put key value ls.items) ≤ ls.quota then
    Except.ok { ls with items := put key value ls.items }
  else Except.error JSError.quotaExceeded

end LocalStorage

/-! ## The component state -/

/-- The values of `syncStatus`. -/
inductive SyncStatus where
  | idle
  | saving
  | saved
  | error
  deriving DecidableEq, Repr

/-- The state variables of `LearningPlatform` that the persistence code reads
or writes. -/
structure AppState where
  selectedCourse : JSVal
  expandedSections : JSSet
  lastSync : JSVal
  syncStatus : SyncStatus
  courses : JSVal
  deriving DecidableEq

/-- The three state variables a `saveData` closure reads, which are also the
dependencies of the auto-save effect. -/
structure Deps where
  courses : JSVal
  selectedCourse : JSVal
  expandedSections : JSSet
  deriving DecidableEq

/-- The dependencies as they stand in a state. -/
def AppState.deps (st : AppState) : Deps :=
  { courses := st.courses, selectedCourse := st.selectedCourse,
    expandedSections := st.expandedSections }

/-- The storage key used by the component. -/
def storageKey : String := "learning-platform-data"

/-- The constant `defaultCourses`. -/
def defaultCourses : JSVal :=
  JSVal.obj (JSObject.ofEntries [
    ("sales-forecast", JSVal.obj (JSObject.ofEntries [
      ("id", JSVal.str "sales-forecast"),
      ("title", JSVal.str "Prévision des ventes"),
      ("type", JSVal.str "Manuel"),
      ("description",
        JSVal.str "Manuel complet sur les techniques et méthodes de prévision des ventes"),
      ("progress", JSVal.num 65),
      ("totalDocuments", JSVal.num 8),
      ("lastAccessed", JSVal.str "2025-01-06"),
      ("difficulty", JSVal.str "Intermédiaire"),
      ("estimatedTime", JSVal.str "40h"),
      ("chapters", JSVal.arr [
        JSVal.obj (JSObject.ofEntries [
          ("id", JSVal.str "1"),
          ("number", JSVal.str "1"),
          ("title", JSVal.str "Pourquoi élaborer des prévisions des ventes ?"),
          ("documents", JSVal.arr [
            JSVal.obj (JSObject.ofEntries [
              ("id", JSVal.str "d1"), ("name", JSVal.str "Introduction concepts de base"),
              ("type", JSVal.str "note"), ("starred", JSVal.bool true)]),
            JSVal.obj (JSObject.ofEntries [
              ("id", JSVal.str "d2"), ("name", JSVal.str "Cas pratique retail.pdf"),
              ("type", JSVal.str "pdf"), ("starred", JSVal.bool false)])]),
          ("subsections", JSVal.arr [
            JSVal.obj (JSObject.ofEntries [
              ("id", JSVal.str "1.1"), ("number", JSVal.str "1.1"),
              ("title", JSVal.str "La prévision économique de l'optimisation")]),
            JSVal.obj (JSObject.ofEntries [
              ("id", JSVal.str "1.2"), ("number", JSVal.str "1.2"),
              ("title", JSVal.str "L'obligation de prévoir liée aux délais de réaction")])])]),
        JSVal.obj (JSObject.ofEntries [
          ("id", JSVal.str "2"),
          ("number", JSVal.str "2"),
          ("title", JSVal.str "Ce qui caractérise un problème de prévision"),
          ("documents", JSVal.arr []),
          ("subsections", JSVal.arr [])]),
        JSVal.obj (JSObject.ofEntries [
          ("id", JSVal.str "3"),
          ("number", JSVal.str "3"),
          ("title", JSVal.str "Ce qui caractérise une solution prévision"),
          ("documents", JSVal.arr []),
          ("subsections", JSVal.arr [
            JSVal.obj (JSObject.ofEntries [
              ("id", JSVal.str "3.1"), ("number", JSVal.str "3.1"),
              ("title", JSVal.str "Les données à prévoir")]),
            JSVal.obj (JSObject.ofEntries [
              ("id", JSVal.str "3.2"), ("number", JSVal.str "3.2"),
              ("title", JSVal.str "Périodicité de la prévision et horizon")]),
            JSVal.obj (JSObject.ofEntries [
              ("id", JSVal.str "3.3"), ("number", JSVal.str "3.3"),
              ("title", JSVal.str "Quelle(s) méthode(s) choisir ?")]),
            JSVal.obj (JSObject.ofEntries [
              ("id", JSVal.str "3.4"), ("number", JSVal.str "3.4"),
              ("title", JSVal.str "Solution informatique et système d'informations")]),
            JSVal.obj (JSObject.ofEntries [
              ("id", JSVal.str "3.5"), ("number", JSVal.str "3.5"),
              ("title", JSVal.str "La prévision et sa validation")])])])])])),
    ("data-science", JSVal.obj (JSObject.ofEntries [
      ("id", JSVal.str "data-science"),
      ("title", JSVal.str "Data Science Foundations"),
      ("type", JSVal.str "Formation en ligne"),
      ("description", JSVal.str "Formation complète aux fondamentaux de la data science"),
      ("progress", JSVal.num 30),
      ("totalDocuments", JSVal.num 12),
      ("lastAccessed", JSVal.str "2025-01-05"),
      ("difficulty", JSVal.str "Débutant"),
      ("estimatedTime", JSVal.str "60h"),
      ("chapters", JSVal.arr [])]))])

/-- The state of the first render: the arguments of the `useState` calls. -/
def initialState : AppState :=
  { selectedCourse := JSVal.str "sales-forecast",
    expandedSections := JSSet.ofList [JSVal.str "1", JSVal.str "3"],
    lastSync := JSVal.null,
    syncStatus := SyncStatus.idle,
    courses := defaultCourses }

/-! ## Load on start -/

/-- The body of the `try` block of the load effect, on the parsed value: the
four setter calls in order. A throw leaves the calls made before it in
effect. -/
def hydrate (parsed : JSVal) (st : AppState) : AppState :=
  match parsed.getProp "courses" with
  | Except.error _ => st
  | Except.ok c =>
    let st1 := { st with courses := c.orElse defaultCourses }
    match parsed.getProp "selectedCourse" with
    | Except.error _ => st1
    | Except.ok sel =>
      let st2 := { st1 with selectedCourse := sel.orElse (JSVal.str "sales-forecast") }
      match parsed.getProp "expandedSections" with
      | Except.error _ => st2
      | Except.ok ids =>
        match JSSet.construct (ids.orElse (JSVal.arr [JSVal.str "1", JSVal.str "3"])) with
        | Except.error _ => st2
        | Except.ok set =>
          let st3 := { st2 with expandedSections := set }
          match parsed.getProp "lastSync" with
          | Except.error _ => st3
          | Except.ok stamp => { st3 with lastSync := stamp }

/-- The load-on-start effect: read the slot; when it holds a non-empty text,
parse it and hydrate the state, a throw being caught and logged. -/
def loadEffect (ls : LocalStorage) (st : AppState) : AppState :=
  match ls.getItem storageKey with
  | none => st
  | some savedData =>
    if savedData = "" then st
    else
      match JSON.parse savedData with
      | Except.error _ => st
      | Except.ok parsed => hydrate parsed st

/-- The state of a fresh instance once its load effect has run. -/
def freshInstance (ls : LocalStorage) : AppState := loadEffect ls initialState

/-! ## Saving -/

/-- An observable step of a handler: a `setSyncStatus` call, the start of a
`localStorage.setItem` call with its text, and the end of that call. -/
inductive HandlerStep where
  | setStatus (s : SyncStatus)
  | writeBegin (text : String)
  | writeEnd (ok : Bool)
  deriving DecidableEq, Repr

/-- What one call of `saveData` leaves behind. -/
structure SaveOutcome where
  state : AppState
  storage : LocalStorage
  actions : List HandlerStep
  resetDelay : Nat
  deriving DecidableEq

/-- The object `dataToSave` built by `saveData` from the values its closure
holds and the time stamp `new Date().toISOString()`. -/
def dataToSave (deps : Deps) (stamp : String) : JSVal :=
  JSVal.obj (JSObject.ofEntries [
    ("courses", deps.courses),
    ("selectedCourse", deps.selectedCourse),
    ("expandedSections", JSVal.arr deps.expandedSections.toArray),
    ("lastSync", JSVal.str stamp)])

/-- The text handed to `localStorage.setItem`: the result of `JSON.stringify`,
the result `undefined` being passed as the string `undefined`. -/
def payloadText (deps : Deps) (stamp : String) : String :=
  match JSON.stringify (dataToSave deps stamp) with
  | some text => text
  | none => "undefined"

/-- The function `saveData`, called from a closure holding `deps`, at a moment
whose time stamp is `stamp`, on the current state and storage. The status goes
to `saving`; a successful write sets `lastSync` and the status `saved` and
registers the reset to `idle` after 2000 ms; a throw sets the status `error`
and registers the reset after 3000 ms. -/
def saveData (deps : Deps) (stamp : String) (st : AppState) (ls : LocalStorage) : SaveOutcome :=
  let st1 := { st with syncStatus := SyncStatus.saving }
  let text := payloadText deps stamp
  match ls.setItem storageKey text with
  | Except.ok ls2 =>
    match (dataToSave deps stamp).getProp "lastSync" with
    | Except.ok stampVal =>
      { state := { st1 with lastSync := stampVal, syncStatus := SyncStatus.saved },
        storage := ls2,
        actions := [HandlerStep.setStatus SyncStatus.saving, HandlerStep.writeBegin text,
          HandlerStep.writeEnd true, HandlerStep.setStatus SyncStatus.saved],
        resetDelay := 2000 }
    | Except.error _ =>
      { state := { st1 with syncStatus := SyncStatus.error },
        storage := ls2,
        actions := [HandlerStep.setStatus SyncStatus.saving, HandlerStep.writeBegin text,
          HandlerStep.writeEnd true, HandlerStep.setStatus SyncStatus.error],
        resetDelay := 3000 }
  | Except.error _ =>
    { state := { st1 with syncStatus := SyncStatus.error },
      storage := ls,
      actions := [HandlerStep.setStatus SyncStatus.saving, HandlerStep.writeBegin text,
        HandlerStep.writeEnd false, HandlerStep.setStatus SyncStatus.error],
      resetDelay := 3000 }

/-! ## The event loop: mutations, timers, manual saves -/

/-- One entry of the observable history: when the step happened, whether its
handler was the manual save button, and the step. -/
structure TraceEntry where
  time : Nat
  manual : Bool
  step : HandlerStep
  deriving DecidableEq, Repr

/-- The component together with its surroundings: the clock in milliseconds,
the state, the storage, the pending auto-save timer (its due time and the
values held by the `saveData` closure it will call), the due times of the
pending status-reset timers, and the history so far. -/
structure World where
  now : Nat
  app : AppState
  storage : LocalStorage
  debounce : Option (Nat × Deps)
  resets : List Nat
  trace : List TraceEntry
  deriving DecidableEq

/-- The auto-save effect after a render in which a dependency changed: the
cleanup clears the pending timer, and `setTimeout(saveData, 1000)` registers
the `saveData` of this render. -/
def arm (w : World) : World :=
  { w with debounce := some (w.now + 1000, w.app.deps) }

/-- A state change made by the user interface. -/
inductive Mutation where
  | toggle (sectionId : JSVal)
  | select (courseId : JSVal)
  | replaceCourses (courses : JSVal)
  deriving DecidableEq

/-- The effect of a state change: `toggleSection` always produces a new set and
`replaceCourses` a new object, so the auto-save effect runs again;
`setSelectedCourse` with the id already selected changes nothing and causes no
render. -/
def mutate (m : Mutation) (w : World) : World :=
  match m with
  | Mutation.toggle sectionId =>
    arm { w with app :=
      { w.app with expandedSections := toggleSection sectionId w.app.expandedSections } }
  | Mutation.select courseId =>
    if courseId = w.app.selectedCourse then w
    else arm { w with app := { w.app with selectedCourse := courseId } }
  | Mutation.replaceCourses courses =>
    arm { w with app := { w.app with courses := courses } }

/-- One call of `saveData` inside the world: the outcome is applied, the steps
are added to the history and the status reset is registered. The time stamp is
the rendering `iso` of the clock. -/
def runSave (iso : Nat → String) (manual : Bool) (deps : Deps) (w : World) : World :=
  let out := saveData deps (iso w.now) w.app w.storage
  { w with
    app := out.state,
    storage := out.storage,
    resets := w.resets ++ [w.now + out.resetDelay],
    trace := w.trace ++ out.actions.map (fun a => TraceEntry.mk w.now manual a) }

/-- A click on the manual save button: `saveData` of the current render. -/
def manualSave (iso : Nat → String) (w : World) : World :=
  runSave iso true w.app.deps w

/-- The status-reset timers that are due fire: each sets the status `idle`. -/
def fireResets (w : World) : World :=
  let due := w.resets.filter (fun t => decide (t ≤ w.now))
  if due = [] then w
  else
    { w with
      app := { w.app with syncStatus := SyncStatus.idle },
      resets := w.resets.filter (fun t => decide (w.now < t)),
      trace := w.trace ++
        due.map (fun _ => TraceEntry.mk w.now false (HandlerStep.setStatus SyncStatus.idle)) }

/-- The auto-save timer fires when it is due: it calls the `saveData` it was
registered with. -/
def fireDebounce (iso : Nat → String) (w : World) : World :=
  match w.debounce with
  | none => w
  | some (due, deps) =>
    if due ≤ w.now then runSave iso false deps { w with debounce := none } else w

/-- One millisecond passes. Timers due at the new time fire in the order of
their registration: a status reset due now was registered before an auto-save
timer due now. -/
def tick (iso : Nat → String) (w : World) : World :=
  fireDebounce iso (fireResets { w with now := w.now + 1 })

/-- The passing of `n` milliseconds. -/
def advance (iso : Nat → String) : Nat → World → World
  | 0, w => w
  | n + 1, w => advance iso n (tick iso w)

/-- The world right after the component is mounted on a storage: the first
render arms the auto-save timer, the load effect runs, and the render that
follows a change of a dependency arms the timer again. -/
def mount (ls : LocalStorage) : World :=
  let w0 : World := arm
    { now := 0, app := initialState, storage := ls, debounce := none, resets := [], trace := [] }
  let app1 := loadEffect ls initialState
  if app1.deps = initialState.deps then { w0 with app := app1 }
  else arm { w0 with app := app1 }

/-- An event delivered to the component. -/
inductive Event where
  | mutation (m : Mutation)
  | saveClick
  | elapse (ms : Nat)
  deriving DecidableEq

/-- The effect of one event. -/
def Event.apply (iso : Nat → String) (e : Event) (w : World) : World :=
  match e with
  | Event.mutation m => mutate m w
  | Event.saveClick => manualSave iso w
  | Event.elapse ms => advance iso ms w

/-- The effect of a sequence of events. -/
def run (iso : Nat → String) (events : List Event) (w : World) : World :=
  events.foldl (fun acc e => e.apply iso acc) w

/-- The texts written by the timer-driven path, with their times. -/
def autoWrites (trace : List TraceEntry) : List (Nat × String) :=
  trace.filterMap fun e =>
    match e.manual, e.step with
    | false, HandlerStep.writeBegin text => some (e.time, text)
    | _, _ => none

/-- A check of one step against the status and the number of writes in flight
before it: `saving` may be set only when the status is not `saving`, a write
may begin only when none is in flight, and a write that ends was in flight. The
result is the status and the number of writes in flight after the step, or
`none` when the step is not allowed. -/
def replayStep : SyncStatus × Nat → HandlerStep → Option (SyncStatus × Nat)
  | (status, inFlight), HandlerStep.setStatus s =>
    if s = SyncStatus.saving ∧ status = SyncStatus.saving then none else some (s, inFlight)
  | (status, inFlight), HandlerStep.writeBegin _ =>
    if inFlight = 0 then some (status, 1) else none
  | (status, inFlight), HandlerStep.writeEnd _ =>
    if inFlight = 1 then some (status, 0) else none

/-- A check of a history of steps: the status and the number of writes in
flight at its end, or `none` when some step is not allowed. -/
def replay (start : SyncStatus × Nat) : List HandlerStep → Option (SyncStatus × Nat)
  | [] => some start
  | a :: rest =>
    match replayStep start a with
    | some next => replay next rest
    | none => none

/-- The history of a world is allowed and ends in the world's status with no
write in flight, and that status is not `saving`. -/
def Settled (w : World) : Prop :=
  replay (SyncStatus.idle, 0) (w.trace.map TraceEntry.step) = some (w.app.syncStatus, 0) ∧
    w.app.syncStatus ≠ SyncStatus.saving

/-- Whether a state change changes a dependency of the auto-save effect in the
world it arrives in. -/
def Mutation.effective (m : Mutation) (w : World) : Bool :=
  match m with
  | Mutation.select courseId => decide (courseId ≠ w.app.selectedCourse)
  | _ => true

/-- A run of state changes, each arriving `gap` milliseconds after the one
before it. -/
def burst (iso : Nat → String) : List (Nat × Mutation) → World → World
  | [], w => w
  | (gap, m) :: rest, w => burst iso rest (mutate m (advance iso gap w))

/-- Every state change of the run arrives less than 1000 ms after the one
before it and changes a dependency. -/
def RapidBurst (iso : Nat → String) : List (Nat × Mutation) → World → Prop
  | [], _ => True
  | (gap, m) :: rest, w =>
    gap < 1000 ∧ m.effective (advance iso gap w) = true ∧
      RapidBurst iso rest (mutate m (advance iso gap w))

/-- What the passing of time keeps when the auto-save timer does not fire. -/
structure Quiet (w w2 : World) (n : Nat) : Prop where
  now : w2.now = w.now + n
  debounce : w2.debounce = w.debounce
  deps : w2.app.deps = w.app.deps
  storage : w2.storage = w.storage
  writes : autoWrites w2.trace = autoWrites w.trace

/-- A rendering of the clock used in examples: the number of milliseconds in
decimal. The real rendering is `Date.prototype.toISOString`; the functions
above take it as the argument `iso`. -/
def sampleIso (ms : Nat) : String := toString ms

/-- A state with no course, no expanded section and the empty string as the
selected id. -/
def emptySelectionState : AppState :=
  { selectedCourse := JSVal.str "",
    expandedSections := JSSet.empty,
    lastSync := JSVal.null,
    syncStatus := SyncStatus.idle,
    courses := JSVal.obj [] }

/-! ## Values that a JSON text can carry -/

namespace JSON

mutual
/-- A value that a JSON text carries unchanged: it holds no `undefined`, its
numbers are integers, and the properties of each of its objects are listed in
enumeration order, each key once. -/
def storable : JSVal → Bool
  | JSVal.undefined => false
  | JSVal.null => true
  | JSVal.bool _ => true
  | JSVal.num _ => true
  | JSVal.frac _ _ => false
  | JSVal.str _ => true
  | JSVal.arr xs => storableList xs
  | JSVal.obj kvs => storableFields kvs && decide (JSObject.ofEntries kvs = kvs)
/-- Every element is storable. -/
def storableList : List JSVal → Bool
  | [] => true
  | x :: xs => storable x && storableList xs
/-- Every property value is storable. -/
def storableFields : List (String × JSVal) → Bool
  | [] => true
  | (_, v) :: rest => storable v && storableFields rest
end

/-- A character that is not white space. -/
def NotWs (c : Char) : Prop := c ≠ ' ' ∧ c ≠ '\t' ∧ c ≠ '\n' ∧ c ≠ '\r'

/-- A text that can follow a value inside a JSON text: nothing, or a text that
starts with a comma, a closing bracket or a closing brace. -/
def Delim (rest : List Char) : Prop :=
  rest = [] ∨ ∃ c tail, rest = c :: tail ∧ (c = ',' ∨ c = ']' ∨ c = '\x7d')

end JSON

/-- The defaults with section `2` toggled. -/
def toggledState : AppState :=
  { initialState with
    expandedSections := toggleSection (JSVal.str "2") initialState.expandedSections }

/-! ## The selected course and its rendering -/

/-- The names of the members that every object inherits from
`Object.prototype`. -/
def objectPrototypeKeys : List String :=
  ["constructor", "__defineGetter__", "__defineSetter__", "hasOwnProperty",
    "__lookupGetter__", "__lookupSetter__", "isPrototypeOf", "propertyIsEnumerable",
    "toString", "valueOf", "__proto__", "toLocaleString"]

/-- The result of a keyed read on an object of the data: a value, or a member
inherited from `Object.prototype` (a built-in function, or the prototype
itself), which is not a value of the data. -/
inductive Member where
  | value (v : JSVal)
  | inherited (name : String)
  deriving DecidableEq

/-- The constant `currentCourse = courses[selectedCourse]`, for a courses
object with the own properties `courses` and a string id: the own property
under that id; without one, the inherited member of that name; without one,
`undefined`. -/
def currentCourse (courses : List (String × JSVal)) (selectedCourse : String) : Member :=
  if courses.any (fun p => decide (p.1 = selectedCourse)) then
    Member.value (JSVal.lookupField selectedCourse courses)
  else if selectedCourse ∈ objectPrototypeKeys then Member.inherited selectedCourse
  else Member.value JSVal.undefined

/-- The property read `current.name` for the names the render reads: on a value
it is the property read of the value; an inherited member has none of these
properties. -/
def Member.getProp (current : Member) (name : String) : Except JSError JSVal :=
  match current with
  | Member.value v => v.getProp name
  | Member.inherited _ => Except.ok JSVal.undefined

/-- What the main panel shows of the current course. -/
structure CourseView where
  isManual : Bool
  title : JSVal
  description : JSVal
  type : JSVal
  difficulty : JSVal
  estimatedTime : JSVal
  totalDocuments : JSVal
  progress : JSVal
  chapters : JSVal
  deriving DecidableEq

/-- The reads of `currentCourse` made by the render of the main panel, in the
order of the markup: `type` (compared with `'Manuel'`), `title`, `description`,
`type`, `difficulty`, `estimatedTime`, `totalDocuments`, `progress` and
`chapters`. A read that throws ends the render with the exception. -/
def renderCourse (current : Member) : Except JSError CourseView :=
  match current.getProp "type" with
  | Except.error e => Except.error e
  | Except.ok type0 =>
    match current.getProp "title" with
    | Except.error e => Except.error e
    | Except.ok title =>
      match current.getProp "description" with
      | Except.error e => Except.error e
      | Except.ok description =>
        match current.getProp "type" with
        | Except.error e => Except.error e
        | Except.ok type1 =>
          match current.getProp "difficulty" with
          | Except.error e => Except.error e
          | Except.ok difficulty =>
            match current.getProp "estimatedTime" with
            | Except.error e => Except.error e
            | Except.ok estimatedTime =>
              match current.getProp "totalDocuments" with
              | Except.error e => Except.error e
              | Except.ok totalDocuments =>
                match current.getProp "progress" with
                | Except.error e => Except.error e
                | Except.ok progress =>
                  match current.getProp "chapters" with
                  | Except.error e => Except.error e
                  | Except.ok chapters =>
                    Except.ok
                      { isManual := decide (type0 = JSVal.str "Manuel"),
                        title := title,
                        description := description,
                        type := type1,
                        difficulty := difficulty,
                        estimatedTime := estimatedTime,
                        totalDocuments := totalDocuments,
                        progress := progress,
                        chapters := chapters }

/-- The text of a snapshot whose selected id names no course of its courses. -/
def staleSnapshot : String :=
  "\x7b\"courses\":\x7b\"kept\":\x7b\"id\":\"kept\",\"title\":\"Kept\",\"type\":\"Manuel\"\x7d\x7d,\"selectedCourse\":\"deleted\",\"expandedSections\":[]\x7d"

/-! ## Theorems -/

namespace JSSet

theorem ext_elems {a b : JSSet} (h : a.elems = b.elems) : a = b := by
  cases a; cases b; cases h; rfl

theorem add_elems_of_not_mem (s : JSSet) (x : JSVal) (h : x ∉ s.elems) :
    (s.add x).elems = s.elems ++ [x] := by
  unfold add
  rw [dif_neg h]

theorem add_elems_of_mem (s : JSSet) (x : JSVal) (h : x ∈ s.elems) :
    (s.add x).elems = s.elems := by
  unfold add
  rw [dif_pos h]

theorem foldl_add_elems (xs : List JSVal) :
    ∀ acc : JSSet, (acc.elems ++ xs).Nodup → (xs.foldl add acc).elems = acc.elems ++ xs := by
  induction xs with
  | nil => intro acc _; simp
  | cons x xs ih =>
    intro acc h
    have hx : x ∉ acc.elems := by
      intro hmem
      rw [List.nodup_append] at h
      exact h.2.2 hmem (List.mem_cons_self x xs)
    rw [List.foldl_cons, ih (acc.add x)]
    · rw [add_elems_of_not_mem acc x hx, List.append_assoc, List.singleton_append]
    · rw [add_elems_of_not_mem acc x hx, List.append_assoc, List.singleton_append]
      exact h

/-- Copying a set, `new Set(prev)`, gives the same members in the same order. -/
theorem ofList_toArray (s : JSSet) : ofList s.toArray = s := by
  apply ext_elems
  unfold ofList toArray
  rw [foldl_add_elems s.elems empty (by simpa [empty] using s.nodup)]
  simp [empty]

theorem has_iff (s : JSSet) (x : JSVal) : s.has x = true ↔ x ∈ s.elems := by
  simp [has]

theorem mem_add (s : JSSet) (x y : JSVal) : y ∈ (s.add x).elems ↔ y ∈ s.elems ∨ y = x := by
  by_cases h : x ∈ s.elems
  · rw [add_elems_of_mem s x h]
    constructor
    · exact Or.inl
    · rintro (h1 | h1)
      · exact h1
      · exact h1 ▸ h
  · rw [add_elems_of_not_mem s x h]
    simp

theorem mem_delete (s : JSSet) (x y : JSVal) : y ∈ (s.delete x).elems ↔ y ∈ s.elems ∧ y ≠ x := by
  unfold delete
  simp only
  rw [s.nodup.mem_erase_iff]
  tauto

end JSSet

theorem mem_toggleSection (i x : JSVal) (s : JSSet) :
    x ∈ (toggleSection i s).elems ↔ Xor' (x ∈ s.elems) (x = i) := by
  unfold toggleSection
  simp only [JSSet.ofList_toArray]
  by_cases hi : i ∈ s.elems
  · rw [if_pos ((JSSet.has_iff s i).2 hi), JSSet.mem_delete]
    unfold Xor'
    constructor
    · rintro ⟨h1, h2⟩; exact Or.inl ⟨h1, h2⟩
    · rintro (⟨h1, h2⟩ | ⟨h1, h2⟩)
      · exact ⟨h1, h2⟩
      · exact absurd (h1 ▸ hi) h2
  · have : ¬ (s.has i = true) := fun h => hi ((JSSet.has_iff s i).1 h)
    rw [if_neg this, JSSet.mem_add]
    unfold Xor'
    constructor
    · rintro (h1 | h1)
      · exact Or.inl ⟨h1, fun e => hi (e ▸ h1)⟩
      · exact Or.inr ⟨h1, fun e => hi (h1 ▸ e)⟩
    · rintro (⟨h1, _⟩ | ⟨h1, _⟩)
      · exact Or.inl h1
      · exact Or.inr h1

theorem mem_toggleAll (ids : List JSVal) (x : JSVal) :
    ∀ s : JSSet, x ∈ (toggleAll ids s).elems ↔ Xor' (x ∈ s.elems) (Odd (ids.count x)) := by
  induction ids with
  | nil => intro s; simp [toggleAll, Xor']
  | cons i ids ih =>
    intro s
    have step : toggleAll (i :: ids) s = toggleAll ids (toggleSection i s) := rfl
    rw [step, ih, mem_toggleSection]
    by_cases hxi : x = i
    · subst hxi
      rw [List.count_cons_self, Nat.odd_add_one]
      unfold Xor'
      tauto
    · rw [List.count_cons_of_ne hxi]
      unfold Xor'
      tauto

/-- C1: after any sequence of `toggleSection` calls on arbitrary ids, started
from any expansion set `S`, an id `x` is a member exactly when its membership in
`S` differs from the oddness of the number of calls whose argument is `x`; from
a set without `x` membership is the parity of those calls, and a sequence
without a call on `x` leaves its membership as it was. -/
theorem toggleSection_parity (S : JSSet) (x : String) (ids : List String) :
    (((toggleAll (ids.map JSVal.str) S).has (JSVal.str x) = true ↔
        Xor' (S.has (JSVal.str x) = true) (Odd (ids.count x))) ∧
      (S.has (JSVal.str x) = false →
        ((toggleAll (ids.map JSVal.str) S).has (JSVal.str x) = true ↔ Odd (ids.count x)))) ∧
      (x ∉ ids →
        (toggleAll (ids.map JSVal.str) S).has (JSVal.str x) = S.has (JSVal.str x)) := by
  have hinj : Function.Injective JSVal.str := fun a b h => by cases h; rfl
  have hcount : (ids.map JSVal.str).count (JSVal.str x) = ids.count x :=
    List.count_map_of_injective ids JSVal.str hinj x
  have main : (toggleAll (ids.map JSVal.str) S).has (JSVal.str x) = true ↔
      Xor' (S.has (JSVal.str x) = true) (Odd (ids.count x)) := by
    rw [JSSet.has_iff, JSSet.has_iff, mem_toggleAll, hcount]
  refine ⟨⟨main, ?_⟩, ?_⟩
  · intro hS
    rw [main, hS]
    simp [Xor']
  · intro hx
    have h0 : ids.count x = 0 := List.count_eq_zero_of_not_mem hx
    rw [h0] at main
    have : ¬ Odd 0 := by decide
    cases hb : S.has (JSVal.str x) <;> rw [hb] at main <;> simp [Xor', this] at main ⊢ <;> exact main






/-! ### saveData -/

theorem dataToSave_eq (deps : Deps) (stamp : String) :
    dataToSave deps stamp = JSVal.obj [
      ("courses", deps.courses),
      ("selectedCourse", deps.selectedCourse),
      ("expandedSections", JSVal.arr deps.expandedSections.toArray),
      ("lastSync", JSVal.str stamp)] := rfl

theorem dataToSave_lastSync (deps : Deps) (stamp : String) :
    (dataToSave deps stamp).getProp "lastSync" = Except.ok (JSVal.str stamp) := rfl

theorem saveData_ok (deps : Deps) (stamp : String) (st : AppState) (ls ls2 : LocalStorage)
    (h : ls.setItem storageKey (payloadText deps stamp) = Except.ok ls2) :
    saveData deps stamp st ls =
      { state := { st with lastSync := JSVal.str stamp, syncStatus := SyncStatus.saved },
        storage := ls2,
        actions := [HandlerStep.setStatus SyncStatus.saving,
          HandlerStep.writeBegin (payloadText deps stamp),
          HandlerStep.writeEnd true, HandlerStep.setStatus SyncStatus.saved],
        resetDelay := 2000 } := by
  unfold saveData
  simp only [h, dataToSave_lastSync]

theorem saveData_error (deps : Deps) (stamp : String) (st : AppState) (ls : LocalStorage)
    (e : JSError) (h : ls.setItem storageKey (payloadText deps stamp) = Except.error e) :
    saveData deps stamp st ls =
      { state := { st with syncStatus := SyncStatus.error },
        storage := ls,
        actions := [HandlerStep.setStatus SyncStatus.saving,
          HandlerStep.writeBegin (payloadText deps stamp),
          HandlerStep.writeEnd false, HandlerStep.setStatus SyncStatus.error],
        resetDelay := 3000 } := by
  unfold saveData
  simp only [h]

theorem saveData_deps (deps : Deps) (stamp : String) (st : AppState) (ls : LocalStorage) :
    (saveData deps stamp st ls).state.deps = st.deps := by
  cases h : ls.setItem storageKey (payloadText deps stamp) with
  | ok l2 => rw [saveData_ok deps stamp st ls l2 h]; rfl
  | error e => rw [saveData_error deps stamp st ls e h]; rfl

/-- C4: one call of `saveData`, from any state and any prior status, sets the
status `saving` first and sets it once more at its end: to `saved` exactly when
the write to the storage slot does not throw, to `error` exactly when it
throws; the final status is never `idle` nor `saving`. -/
theorem saveData_outcome (deps : Deps) (stamp : String) (st : AppState) (ls : LocalStorage) :
    (∃ ok final, (saveData deps stamp st ls).actions =
        [HandlerStep.setStatus SyncStatus.saving,
          HandlerStep.writeBegin (payloadText deps stamp),
          HandlerStep.writeEnd ok, HandlerStep.setStatus final] ∧
        (saveData deps stamp st ls).state.syncStatus = final) ∧
      ((saveData deps stamp st ls).state.syncStatus = SyncStatus.saved ↔
        ∃ ls2, ls.setItem storageKey (payloadText deps stamp) = Except.ok ls2) ∧
      ((saveData deps stamp st ls).state.syncStatus = SyncStatus.error ↔
        ∃ e, ls.setItem storageKey (payloadText deps stamp) = Except.error e) ∧
      (saveData deps stamp st ls).state.syncStatus ≠ SyncStatus.idle ∧
      (saveData deps stamp st ls).state.syncStatus ≠ SyncStatus.saving := by
  cases h : ls.setItem storageKey (payloadText deps stamp) with
  | ok ls2 =>
    rw [saveData_ok deps stamp st ls ls2 h]
    refine ⟨⟨true, SyncStatus.saved, rfl, rfl⟩, ?_, ?_, ?_, ?_⟩
    · exact ⟨fun _ => ⟨ls2, rfl⟩, fun _ => rfl⟩
    · constructor
      · intro hc; cases hc
      · rintro ⟨e, he⟩; cases he
    · intro hc; cases hc
    · intro hc; cases hc
  | error e =>
    rw [saveData_error deps stamp st ls e h]
    refine ⟨⟨false, SyncStatus.error, rfl, rfl⟩, ?_, ?_, ?_, ?_⟩
    · constructor
      · intro hc; cases hc
      · rintro ⟨l, hl⟩; cases hl
    · exact ⟨fun _ => ⟨e, rfl⟩, fun _ => rfl⟩
    · intro hc; cases hc
    · intro hc; cases hc

/-- C7: `saveData` leaves `courses`, `selectedCourse` and `expandedSections` as
they were, whether the write succeeds or throws, and a save inside the event
loop leaves the pending auto-save timer as it was; when the write throws,
`lastSync` and the storage are unchanged; when it succeeds, `lastSync` becomes
the time stamp string held by the `lastSync` property of the written payload. -/
theorem saveData_frame (deps : Deps) (stamp : String) (st : AppState) (ls : LocalStorage) :
    ((saveData deps stamp st ls).state.courses = st.courses ∧
      (saveData deps stamp st ls).state.selectedCourse = st.selectedCourse ∧
      (saveData deps stamp st ls).state.expandedSections = st.expandedSections) ∧
    (∀ (iso : Nat → String) (manual : Bool) (w : World),
      (runSave iso manual deps w).debounce = w.debounce ∧
      (runSave iso manual deps w).app.deps = w.app.deps) ∧
    (∀ e, ls.setItem storageKey (payloadText deps stamp) = Except.error e →
      (saveData deps stamp st ls).state.lastSync = st.lastSync ∧
      (saveData deps stamp st ls).storage = ls) ∧
    (∀ ls2, ls.setItem storageKey (payloadText deps stamp) = Except.ok ls2 →
      (saveData deps stamp st ls).state.lastSync = JSVal.str stamp ∧
      (dataToSave deps stamp).getProp "lastSync" = Except.ok (JSVal.str stamp) ∧
      JSON.stringify (dataToSave deps stamp) = some (payloadText deps stamp) ∧
      (saveData deps stamp st ls).storage = ls2) := by
  have hd := saveData_deps deps stamp st ls
  refine ⟨?_, ?_, ?_, ?_⟩
  · unfold AppState.deps at hd
    injection hd with h1 h2 h3
    exact ⟨h1, h2, h3⟩
  · intro iso manual w
    exact ⟨rfl, saveData_deps deps (iso w.now) w.app w.storage⟩
  · intro e h
    rw [saveData_error deps stamp st ls e h]
    exact ⟨rfl, rfl⟩
  · intro ls2 h
    rw [saveData_ok deps stamp st ls ls2 h]
    refine ⟨rfl, rfl, ?_, rfl⟩
    unfold payloadText
    rfl

/-! ### No overlapping writes -/

theorem replay_append (start : SyncStatus × Nat) (xs ys : List HandlerStep) :
    replay start (xs ++ ys) =
      match replay start xs with
      | some mid => replay mid ys
      | none => none := by
  induction xs generalizing start with
  | nil => rfl
  | cons a rest ih =>
    simp only [List.cons_append, replay]
    cases replayStep start a with
    | none => rfl
    | some next => exact ih next

theorem hydrate_syncStatus (parsed : JSVal) (st : AppState) :
    (hydrate parsed st).syncStatus = st.syncStatus := by
  unfold hydrate
  repeat' split
  all_goals rfl

theorem loadEffect_syncStatus (ls : LocalStorage) (st : AppState) :
    (loadEffect ls st).syncStatus = st.syncStatus := by
  unfold loadEffect
  repeat' split
  all_goals first | rfl | exact hydrate_syncStatus _ _

theorem settled_mount (ls : LocalStorage) : Settled (mount ls) := by
  unfold mount
  dsimp only
  split
  · exact ⟨by simp [arm, replay, loadEffect_syncStatus, initialState], by
      simp [arm, loadEffect_syncStatus, initialState]⟩
  · exact ⟨by simp [arm, replay, loadEffect_syncStatus, initialState], by
      simp [arm, loadEffect_syncStatus, initialState]⟩

theorem settled_mutate (m : Mutation) (w : World) (h : Settled w) : Settled (mutate m w) := by
  unfold mutate
  cases m with
  | toggle i => exact h
  | select i =>
    simp only
    split
    · exact h
    · exact h
  | replaceCourses c => exact h

theorem settled_runSave (iso : Nat → String) (manual : Bool) (deps : Deps) (w : World)
    (h : Settled w) : Settled (runSave iso manual deps w) := by
  obtain ⟨h1, h2⟩ := h
  unfold Settled runSave
  simp only [List.map_append, List.map_map]
  rw [replay_append, h1]
  cases hs : w.storage.setItem storageKey (payloadText deps (iso w.now)) with
  | ok l2 =>
    rw [saveData_ok deps (iso w.now) w.app w.storage l2 hs]
    refine ⟨?_, by simp⟩
    simp [replay, replayStep, h2]
  | error e =>
    rw [saveData_error deps (iso w.now) w.app w.storage e hs]
    refine ⟨?_, by simp⟩
    simp [replay, replayStep, h2]

theorem replay_idles (t : Nat) (s : SyncStatus) (k : Nat) (l : List Nat) (hl : l ≠ []) :
    replay (s, k) ((l.map fun _ =>
      TraceEntry.mk t false (HandlerStep.setStatus SyncStatus.idle)).map TraceEntry.step) =
      some (SyncStatus.idle, k) := by
  induction l generalizing s with
  | nil => exact absurd rfl hl
  | cons a rest ih =>
    simp only [List.map_cons, replay, replayStep]
    rw [if_neg (by simp)]
    cases rest with
    | nil => rfl
    | cons b r => exact ih SyncStatus.idle (by simp)

theorem settled_fireResets (w : World) (h : Settled w) : Settled (fireResets w) := by
  obtain ⟨h1, h2⟩ := h
  unfold fireResets
  simp only
  split
  · exact ⟨h1, h2⟩
  · rename_i hne
    unfold Settled
    simp only [List.map_append]
    rw [replay_append, h1]
    exact ⟨replay_idles w.now _ 0 _ hne, by simp⟩

theorem settled_fireDebounce (iso : Nat → String) (w : World) (h : Settled w) :
    Settled (fireDebounce iso w) := by
  unfold fireDebounce
  split
  · exact h
  · split
    · exact settled_runSave iso false _ _ h
    · exact h

theorem settled_tick (iso : Nat → String) (w : World) (h : Settled w) : Settled (tick iso w) := by
  unfold tick
  exact settled_fireDebounce iso _ (settled_fireResets _ h)

theorem settled_advance (iso : Nat → String) (n : Nat) :
    ∀ w : World, Settled w → Settled (advance iso n w) := by
  induction n with
  | zero => intro w h; exact h
  | succ n ih => intro w h; exact ih _ (settled_tick iso w h)

theorem settled_apply (iso : Nat → String) (e : Event) (w : World) (h : Settled w) :
    Settled (e.apply iso w) := by
  cases e with
  | mutation m => exact settled_mutate m w h
  | saveClick => exact settled_runSave iso true _ w h
  | elapse ms => exact settled_advance iso ms w h

theorem settled_run (iso : Nat → String) (events : List Event) :
    ∀ w : World, Settled w → Settled (run iso events w) := by
  induction events with
  | nil => intro w h; exact h
  | cons e rest ih => intro w h; exact ih _ (settled_apply iso e w h)

/-- C9: in every world reached from a mount by any sequence of mutations,
manual save clicks and passing time (with the timers that fire in it), the
history of steps is allowed: no write begins while another is in flight and
`saving` is never set while the status is `saving`; at the end no write is in
flight and the status is not `saving`. A `saveData` call itself runs its write
and both status updates in one piece: with a status other than `saving` before
it, its own steps are allowed and end with no write in flight. -/
theorem no_overlapping_writes (iso : Nat → String) (ls : LocalStorage) (events : List Event) :
    (replay (SyncStatus.idle, 0) ((run iso events (mount ls)).trace.map TraceEntry.step) =
        some ((run iso events (mount ls)).app.syncStatus, 0) ∧
      (run iso events (mount ls)).app.syncStatus ≠ SyncStatus.saving) ∧
    (∀ (manual : Bool) (deps : Deps),
      replay ((run iso events (mount ls)).app.syncStatus, 0)
        (saveData deps (iso (run iso events (mount ls)).now) (run iso events (mount ls)).app
          (run iso events (mount ls)).storage).actions =
        some ((runSave iso manual deps (run iso events (mount ls))).app.syncStatus, 0)) := by
  have h := settled_run iso events (mount ls) (settled_mount ls)
  refine ⟨h, ?_⟩
  intro manual deps
  have h2 := settled_runSave iso manual deps _ h
  obtain ⟨h3, _⟩ := h2
  unfold runSave at h3
  simp only [List.map_append, List.map_map] at h3
  rw [replay_append, h.1] at h3
  simp only at h3
  have hmap : (saveData deps (iso (run iso events (mount ls)).now) (run iso events (mount ls)).app
      (run iso events (mount ls)).storage).actions.map
        (TraceEntry.step ∘ fun a => TraceEntry.mk (run iso events (mount ls)).now manual a) =
      (saveData deps (iso (run iso events (mount ls)).now) (run iso events (mount ls)).app
      (run iso events (mount ls)).storage).actions := by
    simp [Function.comp_def]
  rw [hmap] at h3
  exact h3

/-! ### Debounce -/

theorem autoWrites_append (a b : List TraceEntry) :
    autoWrites (a ++ b) = autoWrites a ++ autoWrites b := by
  unfold autoWrites
  exact List.filterMap_append _ _ _

theorem autoWrites_idles (t : Nat) (l : List Nat) :
    autoWrites (l.map fun _ =>
      TraceEntry.mk t false (HandlerStep.setStatus SyncStatus.idle)) = [] := by
  induction l with
  | nil => rfl
  | cons a rest ih =>
    rw [List.map_cons]
    unfold autoWrites at ih ⊢
    rw [List.filterMap_cons]
    exact ih

theorem autoWrites_saveData (deps : Deps) (stamp : String) (st : AppState) (ls : LocalStorage)
    (t : Nat) :
    autoWrites ((saveData deps stamp st ls).actions.map fun a => TraceEntry.mk t false a) =
      [(t, payloadText deps stamp)] := by
  cases h : ls.setItem storageKey (payloadText deps stamp) with
  | ok l2 => rw [saveData_ok deps stamp st ls l2 h]; rfl
  | error e => rw [saveData_error deps stamp st ls e h]; rfl

theorem fireResets_quiet (w : World) : Quiet w (fireResets w) 0 := by
  unfold fireResets
  simp only
  split
  · exact ⟨rfl, rfl, rfl, rfl, rfl⟩
  · refine ⟨rfl, rfl, rfl, rfl, ?_⟩
    simp only
    rw [autoWrites_append, autoWrites_idles, List.append_nil]

theorem tick_quiet (iso : Nat → String) (w : World)
    (h : ∀ due deps, w.debounce = some (due, deps) → w.now + 1 < due) :
    Quiet w (tick iso w) 1 := by
  have hr := fireResets_quiet { w with now := w.now + 1 }
  have hd : (fireResets { w with now := w.now + 1 }).debounce = w.debounce := hr.debounce
  have hn : (fireResets { w with now := w.now + 1 }).now = w.now + 1 := hr.now
  have hfire : fireDebounce iso (fireResets { w with now := w.now + 1 }) =
      fireResets { w with now := w.now + 1 } := by
    unfold fireDebounce
    split
    · rfl
    · rename_i due deps heq
      rw [hd] at heq
      have := h due deps heq
      rw [if_neg (by rw [hn]; omega)]
  unfold tick
  rw [hfire]
  exact ⟨hr.now, hr.debounce, hr.deps, hr.storage, hr.writes⟩

theorem advance_quiet (iso : Nat → String) (n : Nat) :
    ∀ w : World, (∀ due deps, w.debounce = some (due, deps) → w.now + n < due) →
      Quiet w (advance iso n w) n := by
  induction n with
  | zero => intro w _; exact ⟨rfl, rfl, rfl, rfl, rfl⟩
  | succ n ih =>
    intro w h
    have h1 := tick_quiet iso w (fun due deps hd => by have := h due deps hd; omega)
    have h2 := ih (tick iso w) (fun due deps hd => by
      rw [h1.debounce] at hd
      have := h due deps hd
      rw [h1.now]; omega)
    show Quiet w (advance iso n (tick iso w)) (n + 1)
    exact ⟨by rw [h2.now, h1.now]; omega, by rw [h2.debounce, h1.debounce],
      by rw [h2.deps, h1.deps], by rw [h2.storage, h1.storage], by rw [h2.writes, h1.writes]⟩

theorem tick_fire (iso : Nat → String) (w : World) (deps : Deps)
    (h : w.debounce = some (w.now + 1, deps)) :
    (tick iso w).now = w.now + 1 ∧ (tick iso w).debounce = none ∧
      (tick iso w).app.deps = w.app.deps ∧
      autoWrites (tick iso w).trace =
        autoWrites w.trace ++ [(w.now + 1, payloadText deps (iso (w.now + 1)))] := by
  have hr := fireResets_quiet { w with now := w.now + 1 }
  have hd : (fireResets { w with now := w.now + 1 }).debounce = some (w.now + 1, deps) := by
    rw [hr.debounce]; exact h
  have hn : (fireResets { w with now := w.now + 1 }).now = w.now + 1 := hr.now
  have hw : autoWrites (fireResets { w with now := w.now + 1 }).trace = autoWrites w.trace :=
    hr.writes
  have hdeps : (fireResets { w with now := w.now + 1 }).app.deps = w.app.deps := hr.deps
  unfold tick fireDebounce
  rw [hd]
  simp only
  rw [if_pos (by rw [hn])]
  unfold runSave
  simp only
  refine ⟨hn, trivial, ?_, ?_⟩
  · rw [saveData_deps]; exact hdeps
  · rw [autoWrites_append, autoWrites_saveData, hw, hn]

theorem advance_add (iso : Nat → String) (a b : Nat) (w : World) :
    advance iso (a + b) w = advance iso b (advance iso a w) := by
  induction a generalizing w with
  | zero => simp [advance]
  | succ a ih =>
    have : a + 1 + b = (a + b) + 1 := by omega
    rw [this]
    show advance iso (a + b) (tick iso w) = advance iso b (advance iso a (tick iso w))
    exact ih (tick iso w)

/-- The auto-save timer is pending, due 1000 ms from now, and its closure holds
the current values of the dependencies. -/
theorem armed_mutate (m : Mutation) (w : World) (h : m.effective w = true) :
    (mutate m w).debounce = some ((mutate m w).now + 1000, (mutate m w).app.deps) ∧
      (mutate m w).now = w.now ∧ (mutate m w).trace = w.trace := by
  cases m with
  | toggle i => exact ⟨rfl, rfl, rfl⟩
  | select i =>
    have hne : ¬ (i = w.app.selectedCourse) := by simpa [Mutation.effective] using h
    unfold mutate
    simp only [if_neg hne]
    exact ⟨rfl, rfl, rfl⟩
  | replaceCourses c => exact ⟨rfl, rfl, rfl⟩

theorem burst_armed (iso : Nat → String) (rest : List (Nat × Mutation)) :
    ∀ w : World, w.debounce = some (w.now + 1000, w.app.deps) → RapidBurst iso rest w →
      (burst iso rest w).debounce =
          some ((burst iso rest w).now + 1000, (burst iso rest w).app.deps) ∧
        autoWrites (burst iso rest w).trace = autoWrites w.trace := by
  induction rest with
  | nil => intro w h _; exact ⟨h, rfl⟩
  | cons p rest ih =>
    intro w h hb
    obtain ⟨gap, m⟩ := p
    obtain ⟨hgap, heff, hrest⟩ := hb
    have hq := advance_quiet iso gap w (fun due deps hd => by
      rw [h] at hd
      injection hd with hd
      injection hd with hd1 _
      omega)
    have hm := armed_mutate m (advance iso gap w) heff
    have := ih (mutate m (advance iso gap w)) hm.1 hrest
    refine ⟨this.1, ?_⟩
    show autoWrites (burst iso rest (mutate m (advance iso gap w))).trace = autoWrites w.trace
    rw [this.2, hm.2.2, hq.writes]

theorem settle_armed (iso : Nat → String) (w : World) (d : Nat) (hd : 1000 ≤ d)
    (h : w.debounce = some (w.now + 1000, w.app.deps)) :
    autoWrites (advance iso d w).trace =
        autoWrites w.trace ++ [(w.now + 1000, payloadText w.app.deps (iso (w.now + 1000)))] ∧
      (advance iso d w).app.deps = w.app.deps ∧ (advance iso d w).debounce = none ∧
      (advance iso d w).now = w.now + d := by
  have hsplit : d = 999 + (1 + (d - 1000)) := by omega
  rw [hsplit, advance_add, advance_add]
  have hq := advance_quiet iso 999 w (fun due deps hd => by
    rw [h] at hd
    injection hd with hd
    injection hd with hd1 _
    omega)
  have hf := tick_fire iso (advance iso 999 w) w.app.deps (by
    rw [hq.debounce, h, hq.now])
  have ht : advance iso 1 (advance iso 999 w) = tick iso (advance iso 999 w) := rfl
  rw [ht]
  have hq2 := advance_quiet iso (d - 1000) (tick iso (advance iso 999 w)) (fun due deps hd => by
    rw [hf.2.1] at hd
    cases hd)
  refine ⟨?_, ?_, ?_, ?_⟩
  · rw [hq2.writes, hf.2.2.2, hq.writes, hq.now]
  · rw [hq2.deps, hf.2.2.1, hq.deps]
  · rw [hq2.debounce, hf.2.1]
  · rw [hq2.now, hf.1, hq.now]; omega

/-- C3: a burst of `N ≥ 1` state changes, each changing a dependency and each
less than 1000 ms after the one before, followed by at least 1000 ms without a
change, makes the timer-driven path write exactly once, 1000 ms after the last
change, and the text written is the payload of the courses, the selection and
the expansion set as they are after the last change; afterwards no auto-save
timer is pending. -/
theorem debounce_coalesces (iso : Nat → String) (w : World) (first : Mutation)
    (rest : List (Nat × Mutation)) (d : Nat)
    (hfirst : first.effective w = true)
    (hrest : RapidBurst iso rest (mutate first w))
    (hd : 1000 ≤ d) :
    autoWrites (advance iso d (burst iso rest (mutate first w))).trace =
        autoWrites w.trace ++
          [((burst iso rest (mutate first w)).now + 1000,
            payloadText (burst iso rest (mutate first w)).app.deps
              (iso ((burst iso rest (mutate first w)).now + 1000)))] ∧
      (advance iso d (burst iso rest (mutate first w))).app.deps =
        (burst iso rest (mutate first w)).app.deps ∧
      (advance iso d (burst iso rest (mutate first w))).debounce = none := by
  have hm := armed_mutate first w hfirst
  have hb := burst_armed iso rest (mutate first w) hm.1 hrest
  have hs := settle_armed iso (burst iso rest (mutate first w)) d hd hb.1
  refine ⟨?_, hs.2.1, hs.2.2.1⟩
  rw [hs.1, hb.2, hm.2.2]

theorem toggleSection_twice_has (x y : JSVal) (s : JSSet) :
    (toggleSection x (toggleSection x s)).has y = s.has y := by
  have h : (toggleSection x (toggleSection x s)).has y = true ↔ s.has y = true := by
    rw [JSSet.has_iff, JSSet.has_iff, mem_toggleSection, mem_toggleSection]
    unfold Xor'
    tauto
  cases h1 : (toggleSection x (toggleSection x s)).has y <;> cases h2 : s.has y <;>
    simp [h1, h2] at h ⊢

theorem burst_cons (iso : Nat → String) (gap : Nat) (m : Mutation)
    (rest : List (Nat × Mutation)) (w : World) :
    burst iso ((gap, m) :: rest) w = burst iso rest (mutate m (advance iso gap w)) := rfl

theorem double_toggle_state (iso : Nat → String) (x : JSVal) (gap : Nat) (hgap : gap < 1000)
    (w : World) :
    (burst iso [(gap, Mutation.toggle x)] (mutate (Mutation.toggle x) w)).app.expandedSections =
      toggleSection x (toggleSection x w.app.expandedSections) ∧
    (burst iso [(gap, Mutation.toggle x)] (mutate (Mutation.toggle x) w)).app.courses =
      w.app.courses ∧
    (burst iso [(gap, Mutation.toggle x)] (mutate (Mutation.toggle x) w)).app.selectedCourse =
      w.app.selectedCourse := by
  have hm := armed_mutate (Mutation.toggle x) w rfl
  have hq := advance_quiet iso gap (mutate (Mutation.toggle x) w) (fun due deps hd => by
    rw [hm.1] at hd
    injection hd with hd
    injection hd with hd1 _
    omega)
  have hdeps := hq.deps
  unfold AppState.deps at hdeps
  injection hdeps with h1 h2 h3
  rw [burst_cons]
  refine ⟨?_, ?_, ?_⟩
  · show toggleSection x (advance iso gap (mutate (Mutation.toggle x) w)).app.expandedSections = _
    rw [h3]
    rfl
  · show (advance iso gap (mutate (Mutation.toggle x) w)).app.courses = _
    rw [h1]
    rfl
  · show (advance iso gap (mutate (Mutation.toggle x) w)).app.selectedCourse = _
    rw [h2]
    rfl

/-- C3, at an instance: two toggles of section `1` 300 ms apart on a freshly
mounted component, then one second of rest, write once; the set written has
the members of the set before the toggles, and the courses and the selection
are those before the toggles. -/
theorem debounce_coalesces_witness :
    ((Mutation.toggle (JSVal.str "1")).effective (mount ⟨[], 100000⟩) = true ∧
      RapidBurst sampleIso [(300, Mutation.toggle (JSVal.str "1"))]
        (mutate (Mutation.toggle (JSVal.str "1")) (mount ⟨[], 100000⟩)) ∧
      1000 ≤ 1000) ∧
    (autoWrites (advance sampleIso 1000 (burst sampleIso [(300, Mutation.toggle (JSVal.str "1"))]
        (mutate (Mutation.toggle (JSVal.str "1")) (mount ⟨[], 100000⟩)))).trace =
      autoWrites (mount ⟨[], 100000⟩).trace ++
        [((burst sampleIso [(300, Mutation.toggle (JSVal.str "1"))]
            (mutate (Mutation.toggle (JSVal.str "1")) (mount ⟨[], 100000⟩))).now + 1000,
          payloadText (burst sampleIso [(300, Mutation.toggle (JSVal.str "1"))]
            (mutate (Mutation.toggle (JSVal.str "1")) (mount ⟨[], 100000⟩))).app.deps
            (sampleIso ((burst sampleIso [(300, Mutation.toggle (JSVal.str "1"))]
              (mutate (Mutation.toggle (JSVal.str "1")) (mount ⟨[], 100000⟩))).now + 1000)))] ∧
      (advance sampleIso 1000 (burst sampleIso [(300, Mutation.toggle (JSVal.str "1"))]
        (mutate (Mutation.toggle (JSVal.str "1")) (mount ⟨[], 100000⟩)))).app.deps =
        (burst sampleIso [(300, Mutation.toggle (JSVal.str "1"))]
          (mutate (Mutation.toggle (JSVal.str "1")) (mount ⟨[], 100000⟩))).app.deps ∧
      (advance sampleIso 1000 (burst sampleIso [(300, Mutation.toggle (JSVal.str "1"))]
        (mutate (Mutation.toggle (JSVal.str "1")) (mount ⟨[], 100000⟩)))).debounce = none) ∧
    (∀ y, (burst sampleIso [(300, Mutation.toggle (JSVal.str "1"))]
        (mutate (Mutation.toggle (JSVal.str "1"))
          (mount ⟨[], 100000⟩))).app.expandedSections.has y =
      (mount ⟨[], 100000⟩).app.expandedSections.has y) :=
  ⟨⟨rfl, ⟨by decide, rfl, trivial⟩, by decide⟩,
    debounce_coalesces sampleIso (mount ⟨[], 100000⟩) (Mutation.toggle (JSVal.str "1"))
      [(300, Mutation.toggle (JSVal.str "1"))] 1000 rfl ⟨by decide, rfl, trivial⟩ (by decide),
    fun y => by
      rw [(double_toggle_state sampleIso (JSVal.str "1") 300 (by decide)
        (mount ⟨[], 100000⟩)).1]
      exact toggleSection_twice_has (JSVal.str "1") y _⟩

/-! ### Status display windows -/

theorem tick_still (iso : Nat → String) (w : World)
    (hd : ∀ due deps, w.debounce = some (due, deps) → w.now + 1 < due)
    (hr : ∀ t ∈ w.resets, w.now + 1 < t) :
    tick iso w = { w with now := w.now + 1 } := by
  have hres : fireResets { w with now := w.now + 1 } = { w with now := w.now + 1 } := by
    unfold fireResets
    simp only
    rw [if_pos]
    rw [List.filter_eq_nil_iff]
    intro t ht
    have := hr t ht
    simp only [decide_eq_true_eq]
    omega
  unfold tick
  rw [hres]
  unfold fireDebounce
  split
  · rfl
  · rename_i due deps heq
    have := hd due deps heq
    rw [if_neg (by simp only; omega)]

theorem advance_still (iso : Nat → String) (n : Nat) :
    ∀ w : World, (∀ due deps, w.debounce = some (due, deps) → w.now + n < due) →
      (∀ t ∈ w.resets, w.now + n < t) → advance iso n w = { w with now := w.now + n } := by
  induction n with
  | zero => intro w _ _; rfl
  | succ n ih =>
    intro w hd hr
    show advance iso n (tick iso w) = _
    rw [tick_still iso w (fun due deps h => by have := hd due deps h; omega)
      (fun t ht => by have := hr t ht; omega)]
    rw [ih _ (fun due deps h => by have := hd due deps h; simp only; omega)
      (fun t ht => by have := hr t ht; simp only; omega)]
    simp only [World.mk.injEq, and_true]
    omega

theorem runSave_ok (iso : Nat → String) (manual : Bool) (deps : Deps) (w : World)
    (ls2 : LocalStorage)
    (h : w.storage.setItem storageKey (payloadText deps (iso w.now)) = Except.ok ls2) :
    runSave iso manual deps w =
      { w with
        app := { w.app with lastSync := JSVal.str (iso w.now), syncStatus := SyncStatus.saved },
        storage := ls2,
        resets := w.resets ++ [w.now + 2000],
        trace := w.trace ++ [
          TraceEntry.mk w.now manual (HandlerStep.setStatus SyncStatus.saving),
          TraceEntry.mk w.now manual (HandlerStep.writeBegin (payloadText deps (iso w.now))),
          TraceEntry.mk w.now manual (HandlerStep.writeEnd true),
          TraceEntry.mk w.now manual (HandlerStep.setStatus SyncStatus.saved)] } := by
  unfold runSave
  rw [saveData_ok deps (iso w.now) w.app w.storage ls2 h]
  rfl

theorem runSave_error (iso : Nat → String) (manual : Bool) (deps : Deps) (w : World)
    (e : JSError)
    (h : w.storage.setItem storageKey (payloadText deps (iso w.now)) = Except.error e) :
    runSave iso manual deps w =
      { w with
        app := { w.app with syncStatus := SyncStatus.error },
        resets := w.resets ++ [w.now + 3000],
        trace := w.trace ++ [
          TraceEntry.mk w.now manual (HandlerStep.setStatus SyncStatus.saving),
          TraceEntry.mk w.now manual (HandlerStep.writeBegin (payloadText deps (iso w.now))),
          TraceEntry.mk w.now manual (HandlerStep.writeEnd false),
          TraceEntry.mk w.now manual (HandlerStep.setStatus SyncStatus.error)] } := by
  unfold runSave
  rw [saveData_error deps (iso w.now) w.app w.storage e h]
  rfl


theorem mount_empty (quota : Nat) :
    mount ⟨[], quota⟩ =
      { now := 0, app := initialState, storage := ⟨[], quota⟩,
        debounce := some (1000, initialState.deps), resets := [], trace := [] } := rfl

theorem setItem_fits (ls : LocalStorage) (key value : String)
    (h : LocalStorage.size (LocalStorage.put key value ls.items) ≤ ls.quota) :
    ls.setItem key value = Except.ok { ls with items := LocalStorage.put key value ls.items } := by
  unfold LocalStorage.setItem
  rw [if_pos h]

set_option maxRecDepth 1000000 in
theorem first_payload_length :
    (payloadText initialState.deps (sampleIso 200)).length ≤ 5000 := by
  decide

set_option maxRecDepth 1000000 in
theorem second_payload_length :
    (payloadText initialState.deps (sampleIso 1000)).length ≤ 5000 := by
  decide

theorem storageKey_length : storageKey.length = 22 := by decide

theorem scenario_click :
    manualSave sampleIso (advance sampleIso 200 (mount ⟨[], 100000⟩)) =
      { now := 200,
        app := { initialState with
          lastSync := JSVal.str (sampleIso 200), syncStatus := SyncStatus.saved },
        storage := ⟨[(storageKey, payloadText initialState.deps (sampleIso 200))], 100000⟩,
        debounce := some (1000, initialState.deps),
        resets := [2200],
        trace := [
          TraceEntry.mk 200 true (HandlerStep.setStatus SyncStatus.saving),
          TraceEntry.mk 200 true
            (HandlerStep.writeBegin (payloadText initialState.deps (sampleIso 200))),
          TraceEntry.mk 200 true (HandlerStep.writeEnd true),
          TraceEntry.mk 200 true (HandlerStep.setStatus SyncStatus.saved)] } := by
  rw [mount_empty]
  rw [advance_still sampleIso 200 _ (fun due deps h => by
      simp only [Option.some.injEq, Prod.mk.injEq] at h
      simp only
      omega)
    (fun t ht => by simp at ht)]
  unfold manualSave
  rw [runSave_ok sampleIso true _ _
    ⟨[(storageKey, payloadText initialState.deps (sampleIso 200))], 100000⟩ (by
      apply (setItem_fits _ _ _ _).trans
      · rfl
      · have := first_payload_length
        have hk := storageKey_length
        show LocalStorage.size [(storageKey,
          payloadText initialState.deps (sampleIso 200))] ≤ 100000
        simp only [LocalStorage.size, List.map_cons, List.map_nil, List.sum_cons, List.sum_nil]
        omega)]
  rfl

theorem tick_debounce (iso : Nat → String) (w : World) (deps : Deps)
    (hd : w.debounce = some (w.now + 1, deps)) (hr : ∀ t ∈ w.resets, w.now + 1 < t) :
    tick iso w = runSave iso false deps { w with now := w.now + 1, debounce := none } := by
  have hres : fireResets { w with now := w.now + 1 } = { w with now := w.now + 1 } := by
    unfold fireResets
    simp only
    rw [if_pos]
    rw [List.filter_eq_nil_iff]
    intro t ht
    have := hr t ht
    simp only [decide_eq_true_eq]
    omega
  unfold tick
  rw [hres]
  unfold fireDebounce
  simp only [hd, le_refl, if_true]

theorem advance_one (iso : Nat → String) (w : World) : advance iso 1 w = tick iso w := rfl

theorem scenario_autosave :
    advance sampleIso 800 (manualSave sampleIso (advance sampleIso 200 (mount ⟨[], 100000⟩))) =
      { now := 1000,
        app := { initialState with
          lastSync := JSVal.str (sampleIso 1000), syncStatus := SyncStatus.saved },
        storage := ⟨[(storageKey, payloadText initialState.deps (sampleIso 1000))], 100000⟩,
        debounce := none,
        resets := [2200, 3000],
        trace := [
          TraceEntry.mk 200 true (HandlerStep.setStatus SyncStatus.saving),
          TraceEntry.mk 200 true
            (HandlerStep.writeBegin (payloadText initialState.deps (sampleIso 200))),
          TraceEntry.mk 200 true (HandlerStep.writeEnd true),
          TraceEntry.mk 200 true (HandlerStep.setStatus SyncStatus.saved),
          TraceEntry.mk 1000 false (HandlerStep.setStatus SyncStatus.saving),
          TraceEntry.mk 1000 false
            (HandlerStep.writeBegin (payloadText initialState.deps (sampleIso 1000))),
          TraceEntry.mk 1000 false (HandlerStep.writeEnd true),
          TraceEntry.mk 1000 false (HandlerStep.setStatus SyncStatus.saved)] } := by
  rw [scenario_click]
  have h800 : 800 = 799 + 1 := rfl
  rw [h800, advance_add]
  rw [advance_still sampleIso 799 _ (fun due deps h => by
      simp only [Option.some.injEq, Prod.mk.injEq] at h
      simp only
      omega)
    (fun t ht => by
      simp only [List.mem_singleton] at ht
      simp only
      omega)]
  rw [advance_one]
  rw [tick_debounce sampleIso _ initialState.deps rfl (fun t ht => by
      simp only [List.mem_singleton] at ht
      simp only
      omega)]
  rw [runSave_ok sampleIso false _ _
    ⟨[(storageKey, payloadText initialState.deps (sampleIso 1000))], 100000⟩ (by
      apply (setItem_fits _ _ _ _).trans
      · rfl
      · have := second_payload_length
        have hk := storageKey_length
        show LocalStorage.size [(storageKey,
          payloadText initialState.deps (sampleIso 1000))] ≤ 100000
        simp only [LocalStorage.size, List.map_cons, List.map_nil, List.sum_cons, List.sum_nil]
        omega)]
  rfl

theorem scenario_stale_reset :
    advance sampleIso 1200
        (advance sampleIso 800 (manualSave sampleIso (advance sampleIso 200 (mount ⟨[], 100000⟩))))
      = { advance sampleIso 800
            (manualSave sampleIso (advance sampleIso 200 (mount ⟨[], 100000⟩))) with
          now := 2200,
          app := { initialState with
            lastSync := JSVal.str (sampleIso 1000), syncStatus := SyncStatus.idle },
          resets := [3000],
          trace := (advance sampleIso 800
              (manualSave sampleIso (advance sampleIso 200 (mount ⟨[], 100000⟩)))).trace ++
            [TraceEntry.mk 2200 false (HandlerStep.setStatus SyncStatus.idle)] } := by
  rw [scenario_autosave]
  have h1200 : 1200 = 1199 + 1 := rfl
  rw [h1200, advance_add]
  rw [advance_still sampleIso 1199 _ (fun due deps h => by simp at h)
    (fun t ht => by
      simp only [List.mem_cons, List.mem_singleton, List.not_mem_nil, or_false] at ht
      simp only
      omega)]
  rw [advance_one]
  rfl

/-- C8, the code at a failing input: on a fresh mount with room in the storage,
a click on the save button at 200 ms and the auto-save of the mount at 1000 ms
both end with the status `saved`; the auto-save registers its reset for 3000 ms
while the reset of the click is still pending for 2200 ms. The status stays
`saved` from 1000 ms up to 2200 ms, is `idle` from 2200 ms on, and no save
starts in that time: the `saved` status of the auto-save is shown for 1200 ms,
not for 2000 ms. -/
theorem saved_window_cut_by_stale_reset :
    ((advance sampleIso 800
        (manualSave sampleIso (advance sampleIso 200 (mount ⟨[], 100000⟩)))).now = 1000 ∧
      (advance sampleIso 800
        (manualSave sampleIso (advance sampleIso 200 (mount ⟨[], 100000⟩)))).app.syncStatus =
          SyncStatus.saved ∧
      (advance sampleIso 800
        (manualSave sampleIso (advance sampleIso 200 (mount ⟨[], 100000⟩)))).resets =
          [2200, 3000] ∧
      (advance sampleIso 800
        (manualSave sampleIso (advance sampleIso 200 (mount ⟨[], 100000⟩)))).debounce = none) ∧
    (∀ d, d < 1200 →
      (advance sampleIso d (advance sampleIso 800
        (manualSave sampleIso (advance sampleIso 200 (mount ⟨[], 100000⟩))))).app.syncStatus =
          SyncStatus.saved) ∧
    (∀ d, 1200 ≤ d → d < 2000 →
      (advance sampleIso d (advance sampleIso 800
        (manualSave sampleIso (advance sampleIso 200 (mount ⟨[], 100000⟩))))).app.syncStatus =
          SyncStatus.idle ∧
      (advance sampleIso d (advance sampleIso 800
        (manualSave sampleIso (advance sampleIso 200 (mount ⟨[], 100000⟩))))).trace =
        (advance sampleIso 800
          (manualSave sampleIso (advance sampleIso 200 (mount ⟨[], 100000⟩)))).trace ++
          [TraceEntry.mk 2200 false (HandlerStep.setStatus SyncStatus.idle)]) := by
  refine ⟨?_, ?_, ?_⟩
  · rw [scenario_autosave]
    exact ⟨rfl, rfl, rfl, rfl⟩
  · intro d hd
    rw [scenario_autosave]
    rw [advance_still sampleIso d _ (fun due deps h => by simp at h)
      (fun t ht => by
        simp only [List.mem_cons, List.mem_singleton, List.not_mem_nil, or_false] at ht
        simp only
        omega)]
  · intro d h1 h2
    have hsplit : d = 1200 + (d - 1200) := by omega
    rw [hsplit, advance_add, scenario_stale_reset]
    rw [advance_still sampleIso (d - 1200) _ (fun due deps h => by
        rw [scenario_autosave] at h
        simp at h)
      (fun t ht => by
        simp only [List.mem_singleton] at ht
        simp only
        omega)]
    exact ⟨rfl, rfl⟩

/-! ### Order of `Object.values` -/

namespace JSObject

theorem define_fresh (o : List (String × JSVal)) (k : String) (v : JSVal)
    (hk : k ∉ keys o) (hi : arrayIndex k = none) : define o k v = o ++ [(k, v)] := by
  unfold define
  have hany : o.any (fun p => decide (p.1 = k)) = false := by
    rw [List.any_eq_false]
    intro p hp hpk
    apply hk
    simp only [decide_eq_true_eq] at hpk
    rw [← hpk]
    exact List.mem_map_of_mem Prod.fst hp
  rw [hany, hi]
  simp

theorem foldl_define_fresh (entries : List (String × JSVal)) :
    ∀ acc : List (String × JSVal), (keys acc ++ keys entries).Nodup →
      (∀ p ∈ entries, arrayIndex p.1 = none) →
      entries.foldl (fun o p => define o p.1 p.2) acc = acc ++ entries := by
  induction entries with
  | nil => intro acc _ _; simp
  | cons p rest ih =>
    intro acc hnd hidx
    have hk : p.1 ∉ keys acc := by
      intro hmem
      rw [List.nodup_append] at hnd
      exact hnd.2.2 hmem (by simp [keys])
    rw [List.foldl_cons, define_fresh acc p.1 p.2 hk (hidx p (List.mem_cons_self p rest))]
    rw [ih (acc ++ [p]) (by
        simpa [keys, List.append_assoc] using hnd)
      (fun q hq => hidx q (List.mem_cons_of_mem p hq))]
    simp

theorem ofEntries_fresh (entries : List (String × JSVal)) (hnd : (keys entries).Nodup)
    (hidx : ∀ p ∈ entries, arrayIndex p.1 = none) : ofEntries entries = entries := by
  unfold ofEntries
  rw [foldl_define_fresh entries [] (by simpa [keys] using hnd) hidx]
  simp

end JSObject

/-- C10, as stated, fails: a mapping built by inserting the id `2` before the
id `1`, in the code or from a persisted snapshot written in that order, is
enumerated by `Object.values` with the course of id `1` first. -/
theorem values_order_counterexample :
    JSObject.values (JSObject.ofEntries
        [("2", JSVal.str "second course"), ("1", JSVal.str "first course")]) =
      [JSVal.str "first course", JSVal.str "second course"] ∧
    JSObject.values (JSObject.ofEntries
        [("2", JSVal.str "second course"), ("1", JSVal.str "first course")]) ≠
      [JSVal.str "second course", JSVal.str "first course"] ∧
    JSON.parse "\x7b\"2\":\"second course\",\"1\":\"first course\"\x7d" =
      Except.ok (JSVal.obj [("1", JSVal.str "first course"), ("2", JSVal.str "second course")]) := by
  decide

/-- C10, amended: for a courses mapping built by inserting distinct ids none of
which is an array index, `Object.values` lists the courses in the order of
insertion, for a mapping built by the code and for one read from a JSON text
alike (the parser defines the members in the order of the text). -/
theorem values_insertion_order (entries : List (String × JSVal))
    (hnd : (entries.map Prod.fst).Nodup)
    (hidx : ∀ p ∈ entries, JSObject.arrayIndex p.1 = none) :
    JSObject.values (JSObject.ofEntries entries) = entries.map Prod.snd := by
  rw [JSObject.ofEntries_fresh entries hnd hidx]
  rfl

/-- C10, amended, at the two course ids of the built-in mapping. -/
theorem values_insertion_order_witness :
    ([("sales-forecast", JSVal.str "a"), ("data-science", JSVal.str "b")].map Prod.fst).Nodup ∧
    (∀ p ∈ [("sales-forecast", JSVal.str "a"), ("data-science", JSVal.str "b")],
      JSObject.arrayIndex p.1 = none) ∧
    JSObject.values (JSObject.ofEntries
        [("sales-forecast", JSVal.str "a"), ("data-science", JSVal.str "b")]) =
      [("sales-forecast", JSVal.str "a"), ("data-science", JSVal.str "b")].map Prod.snd :=
  ⟨by decide, by decide,
    values_insertion_order [("sales-forecast", JSVal.str "a"), ("data-science", JSVal.str "b")]
      (by decide) (by decide)⟩

/-! ### Load on start -/

theorem lookupField_of_not_mem (name : String) (kvs : List (String × JSVal))
    (h : name ∉ JSObject.keys kvs) : JSVal.lookupField name kvs = JSVal.undefined := by
  induction kvs with
  | nil => rfl
  | cons p rest ih =>
    obtain ⟨k, v⟩ := p
    have hk : ¬ (k = name) := fun e => h (by simp [JSObject.keys, e])
    have hrest : name ∉ JSObject.keys rest := fun hm => h (by
      simp only [JSObject.keys, List.map_cons, List.mem_cons]
      exact Or.inr hm)
    simp only [JSVal.lookupField, if_neg hk]
    exact ih hrest

theorem hydrate_not_object (v : JSVal) (st : AppState) (hobj : ∀ kvs, v ≠ JSVal.obj kvs) :
    (hydrate v st).deps =
      (if v = JSVal.null ∨ v = JSVal.undefined then st.deps
       else { courses := defaultCourses, selectedCourse := JSVal.str "sales-forecast",
              expandedSections := JSSet.ofList [JSVal.str "1", JSVal.str "3"] }) := by
  cases v with
  | undefined => rfl
  | null => rfl
  | bool b => rfl
  | num n => rfl
  | frac a e => rfl
  | str s => rfl
  | arr xs => rfl
  | obj kvs => exact absurd rfl (hobj kvs)

/-- A stored snapshot whose course has the progress `12.5` is valid JSON and is
hydrated: the fraction is read as the number it writes. -/
theorem load_hydrates_fractional_numbers :
    JSON.parse "\x7b\"courses\":\x7b\"c\":\x7b\"progress\":12.5\x7d\x7d,\"selectedCourse\":\"c\",\"expandedSections\":[],\"lastSync\":\"t\"\x7d" =
      Except.ok (JSVal.obj [
        ("courses", JSVal.obj [("c", JSVal.obj [("progress", JSVal.frac 125 1)])]),
        ("selectedCourse", JSVal.str "c"),
        ("expandedSections", JSVal.arr []),
        ("lastSync", JSVal.str "t")]) ∧
    (freshInstance ⟨[(storageKey, "\x7b\"courses\":\x7b\"c\":\x7b\"progress\":12.5\x7d\x7d,\"selectedCourse\":\"c\",\"expandedSections\":[],\"lastSync\":\"t\"\x7d")], 0⟩).courses =
      JSVal.obj [("c", JSVal.obj [("progress", JSVal.frac 125 1)])] ∧
    (freshInstance ⟨[(storageKey, "\x7b\"courses\":\x7b\"c\":\x7b\"progress\":12.5\x7d\x7d,\"selectedCourse\":\"c\",\"expandedSections\":[],\"lastSync\":\"t\"\x7d")], 0⟩).selectedCourse = JSVal.str "c" ∧
    (freshInstance ⟨[(storageKey, "\x7b\"courses\":\x7b\"c\":\x7b\"progress\":12.5\x7d\x7d,\"selectedCourse\":\"c\",\"expandedSections\":[],\"lastSync\":\"t\"\x7d")], 0⟩).expandedSections = JSSet.empty ∧
    (freshInstance ⟨[(storageKey, "\x7b\"courses\":\x7b\"c\":\x7b\"progress\":12.5\x7d\x7d,\"selectedCourse\":\"c\",\"expandedSections\":[],\"lastSync\":\"t\"\x7d")], 0⟩).lastSync = JSVal.str "t" := by
  decide

/-- C5, as stated, fails: a stored object whose `expandedSections` is the number
5, with `courses` and `selectedCourse` present, leaves the courses and the
selection of the snapshot in the state; only the expansion set keeps its
default. -/
theorem load_partial_counterexample :
    (freshInstance ⟨[(storageKey,
        "\x7b\"courses\":\x7b\x7d,\"selectedCourse\":\"x\",\"expandedSections\":5\x7d")], 0⟩).courses
      = JSVal.obj [] ∧
    (freshInstance ⟨[(storageKey,
        "\x7b\"courses\":\x7b\x7d,\"selectedCourse\":\"x\",\"expandedSections\":5\x7d")], 0⟩).selectedCourse
      = JSVal.str "x" ∧
    (freshInstance ⟨[(storageKey,
        "\x7b\"courses\":\x7b\x7d,\"selectedCourse\":\"x\",\"expandedSections\":5\x7d")], 0⟩).courses
      ≠ defaultCourses ∧
    (freshInstance ⟨[(storageKey,
        "\x7b\"courses\":\x7b\x7d,\"selectedCourse\":\"x\",\"expandedSections\":5\x7d")], 0⟩).expandedSections
      = JSSet.ofList [JSVal.str "1", JSVal.str "3"] := by
  decide

/-- C5, amended: when the slot is absent or empty, or its text is not
parseable, or it parses to a value that is not an object (`null`, a number, a
boolean, a string, an array), the state after the load effect has the built-in
defaults: `courses = defaultCourses`, `selectedCourse = 'sales-forecast'`,
`expandedSections = {'1','3'}`, and the status is `idle`. The load effect is a
total function of the storage: no throw leaves it. -/
theorem load_falls_back (ls : LocalStorage)
    (h : ls.getItem storageKey = none ∨
      ∃ text, ls.getItem storageKey = some text ∧
        (text = "" ∨ (∃ e, JSON.parse text = Except.error e) ∨
          ∃ v, JSON.parse text = Except.ok v ∧ ∀ kvs, v ≠ JSVal.obj kvs)) :
    (freshInstance ls).courses = defaultCourses ∧
    (freshInstance ls).selectedCourse = JSVal.str "sales-forecast" ∧
    (freshInstance ls).expandedSections = JSSet.ofList [JSVal.str "1", JSVal.str "3"] ∧
    (freshInstance ls).syncStatus = SyncStatus.idle := by
  have hdeps : (freshInstance ls).deps = initialState.deps := by
    unfold freshInstance loadEffect
    rcases h with h | ⟨text, ht, h⟩
    · rw [h]
    · rw [ht]
      simp only
      rcases h with h | ⟨e, he⟩ | ⟨v, hv, hobj⟩
      · rw [if_pos h]
      · by_cases hempty : text = ""
        · rw [if_pos hempty]
        · rw [if_neg hempty, he]
      · by_cases hempty : text = ""
        · rw [if_pos hempty]
        · rw [if_neg hempty, hv]
          simp only
          rw [hydrate_not_object v initialState hobj]
          split <;> rfl
  have hstatus : (freshInstance ls).syncStatus = SyncStatus.idle :=
    loadEffect_syncStatus ls initialState
  unfold AppState.deps at hdeps
  injection hdeps with h1 h2 h3
  exact ⟨h1, h2, h3, hstatus⟩

/-- C5, amended, at the stored text `null`. -/
theorem load_falls_back_witness :
    ((⟨[(storageKey, "null")], 0⟩ : LocalStorage).getItem storageKey = none ∨
      ∃ text, (⟨[(storageKey, "null")], 0⟩ : LocalStorage).getItem storageKey = some text ∧
        (text = "" ∨ (∃ e, JSON.parse text = Except.error e) ∨
          ∃ v, JSON.parse text = Except.ok v ∧ ∀ kvs, v ≠ JSVal.obj kvs)) ∧
    ((freshInstance ⟨[(storageKey, "null")], 0⟩).courses = defaultCourses ∧
    (freshInstance ⟨[(storageKey, "null")], 0⟩).selectedCourse = JSVal.str "sales-forecast" ∧
    (freshInstance ⟨[(storageKey, "null")], 0⟩).expandedSections =
      JSSet.ofList [JSVal.str "1", JSVal.str "3"] ∧
    (freshInstance ⟨[(storageKey, "null")], 0⟩).syncStatus = SyncStatus.idle) :=
  ⟨Or.inr ⟨"null", by decide, Or.inr (Or.inr ⟨JSVal.null, by decide, fun kvs hk => by cases hk⟩)⟩,
    load_falls_back ⟨[(storageKey, "null")], 0⟩
      (Or.inr ⟨"null", by decide,
        Or.inr (Or.inr ⟨JSVal.null, by decide, fun kvs hk => by cases hk⟩)⟩)⟩

theorem hydrate_object (kvs : List (String × JSVal)) (st : AppState) :
    (hydrate (JSVal.obj kvs) st).courses =
        (JSVal.lookupField "courses" kvs).orElse defaultCourses ∧
      (hydrate (JSVal.obj kvs) st).selectedCourse =
        (JSVal.lookupField "selectedCourse" kvs).orElse (JSVal.str "sales-forecast") ∧
      (∀ set, JSSet.construct ((JSVal.lookupField "expandedSections" kvs).orElse
          (JSVal.arr [JSVal.str "1", JSVal.str "3"])) = Except.ok set →
        (hydrate (JSVal.obj kvs) st).expandedSections = set ∧
        (hydrate (JSVal.obj kvs) st).lastSync = JSVal.lookupField "lastSync" kvs) := by
  unfold hydrate
  simp only [JSVal.getProp]
  refine ⟨?_, ?_, ?_⟩
  · split <;> rfl
  · split <;> rfl
  · intro set hset
    rw [hset]
    exact ⟨rfl, rfl⟩

theorem loadEffect_object (ls : LocalStorage) (text : String) (kvs : List (String × JSVal))
    (hget : ls.getItem storageKey = some text)
    (hparse : JSON.parse text = Except.ok (JSVal.obj kvs)) (st : AppState) :
    loadEffect ls st = hydrate (JSVal.obj kvs) st := by
  have hne : text ≠ "" := by
    intro h
    rw [h] at hparse
    have hempty : JSON.parse "" = Except.error JSError.syntaxError := by decide
    rw [hempty] at hparse
    cases hparse
  unfold loadEffect
  rw [hget]
  simp only [if_neg hne, hparse]

/-- C6, as stated, fails: a stored object in which `selectedCourse` is present
as the empty string and `courses` is present as `null` is not hydrated from
these fields; the load puts the defaults in their place. -/
theorem load_present_field_counterexample :
    JSON.parse "\x7b\"courses\":null,\"selectedCourse\":\"\",\"expandedSections\":[]\x7d" =
      Except.ok (JSVal.obj [("courses", JSVal.null), ("selectedCourse", JSVal.str ""),
        ("expandedSections", JSVal.arr [])]) ∧
    (freshInstance ⟨[(storageKey,
        "\x7b\"courses\":null,\"selectedCourse\":\"\",\"expandedSections\":[]\x7d")], 0⟩).selectedCourse
      = JSVal.str "sales-forecast" ∧
    (freshInstance ⟨[(storageKey,
        "\x7b\"courses\":null,\"selectedCourse\":\"\",\"expandedSections\":[]\x7d")], 0⟩).courses
      = defaultCourses ∧
    (freshInstance ⟨[(storageKey,
        "\x7b\"courses\":null,\"selectedCourse\":\"\",\"expandedSections\":[]\x7d")], 0⟩).expandedSections
      = JSSet.empty := by
  decide

/-- C6, amended: for every stored JSON object, a missing `courses` field loads
the built-in courses, a missing `selectedCourse` loads `'sales-forecast'`, a
missing `expandedSections` loads `{'1','3'}`; `courses` and `selectedCourse`
that are present with a truthy value are hydrated from the snapshot, and
`expandedSections` that is present as an array is hydrated from it, each
whatever the other fields are; a field that is present with a falsy value
(`null`, `false`, zero, the empty string) takes its default. The load is a
total function: no throw leaves it. -/
theorem load_field_defaults (ls : LocalStorage) (text : String) (kvs : List (String × JSVal))
    (hget : ls.getItem storageKey = some text)
    (hparse : JSON.parse text = Except.ok (JSVal.obj kvs)) :
    ("courses" ∉ JSObject.keys kvs → (freshInstance ls).courses = defaultCourses) ∧
    ("selectedCourse" ∉ JSObject.keys kvs →
      (freshInstance ls).selectedCourse = JSVal.str "sales-forecast") ∧
    ("expandedSections" ∉ JSObject.keys kvs →
      (freshInstance ls).expandedSections = JSSet.ofList [JSVal.str "1", JSVal.str "3"]) ∧
    ((JSVal.lookupField "courses" kvs).truthy = true →
      (freshInstance ls).courses = JSVal.lookupField "courses" kvs) ∧
    ((JSVal.lookupField "selectedCourse" kvs).truthy = true →
      (freshInstance ls).selectedCourse = JSVal.lookupField "selectedCourse" kvs) ∧
    (∀ xs, JSVal.lookupField "expandedSections" kvs = JSVal.arr xs →
      (freshInstance ls).expandedSections = JSSet.ofList xs) ∧
    ((JSVal.lookupField "courses" kvs).truthy = false →
      (freshInstance ls).courses = defaultCourses) ∧
    ((JSVal.lookupField "selectedCourse" kvs).truthy = false →
      (freshInstance ls).selectedCourse = JSVal.str "sales-forecast") ∧
    ((JSVal.lookupField "expandedSections" kvs).truthy = false →
      (freshInstance ls).expandedSections = JSSet.ofList [JSVal.str "1", JSVal.str "3"]) := by
  unfold freshInstance
  rw [loadEffect_object ls text kvs hget hparse]
  obtain ⟨hc, hs, he⟩ := hydrate_object kvs initialState
  refine ⟨?_, ?_, ?_, ?_, ?_, ?_, ?_, ?_, ?_⟩
  · intro hm
    rw [hc, lookupField_of_not_mem _ _ hm]
    rfl
  · intro hm
    rw [hs, lookupField_of_not_mem _ _ hm]
    rfl
  · intro hm
    refine (he (JSSet.ofList [JSVal.str "1", JSVal.str "3"]) ?_).1
    rw [lookupField_of_not_mem _ _ hm]
    rfl
  · intro ht
    rw [hc]
    unfold JSVal.orElse
    rw [if_pos ht]
  · intro ht
    rw [hs]
    unfold JSVal.orElse
    rw [if_pos ht]
  · intro xs hx
    refine (he (JSSet.ofList xs) ?_).1
    rw [hx]
    rfl
  · intro hf
    rw [hc]
    unfold JSVal.orElse
    rw [hf]
    rfl
  · intro hf
    rw [hs]
    unfold JSVal.orElse
    rw [hf]
    rfl
  · intro hf
    refine (he (JSSet.ofList [JSVal.str "1", JSVal.str "3"]) ?_).1
    unfold JSVal.orElse
    rw [hf]
    rfl

/-- C6, amended, at a stored object in which `courses` is `null`,
`selectedCourse` is missing and `expandedSections` is an array. -/
theorem load_field_defaults_witness :
    (⟨[(storageKey, "\x7b\"courses\":null,\"expandedSections\":[\"2\"]\x7d")], 0⟩ : LocalStorage).getItem storageKey
      = some "\x7b\"courses\":null,\"expandedSections\":[\"2\"]\x7d" ∧
    JSON.parse "\x7b\"courses\":null,\"expandedSections\":[\"2\"]\x7d" =
      Except.ok (JSVal.obj [("courses", JSVal.null), ("expandedSections", JSVal.arr [JSVal.str "2"])]) ∧
    (freshInstance ⟨[(storageKey, "\x7b\"courses\":null,\"expandedSections\":[\"2\"]\x7d")], 0⟩).courses
      = defaultCourses ∧
    (freshInstance ⟨[(storageKey, "\x7b\"courses\":null,\"expandedSections\":[\"2\"]\x7d")], 0⟩).selectedCourse
      = JSVal.str "sales-forecast" ∧
    (freshInstance ⟨[(storageKey, "\x7b\"courses\":null,\"expandedSections\":[\"2\"]\x7d")], 0⟩).expandedSections
      = JSSet.ofList [JSVal.str "2"] :=
  ⟨by decide, by decide,
    (load_field_defaults ⟨[(storageKey, "\x7b\"courses\":null,\"expandedSections\":[\"2\"]\x7d")], 0⟩
      "\x7b\"courses\":null,\"expandedSections\":[\"2\"]\x7d"
      [("courses", JSVal.null), ("expandedSections", JSVal.arr [JSVal.str "2"])]
      (by decide) (by decide)).2.2.2.2.2.2.1 (by decide),
    (load_field_defaults ⟨[(storageKey, "\x7b\"courses\":null,\"expandedSections\":[\"2\"]\x7d")], 0⟩
      "\x7b\"courses\":null,\"expandedSections\":[\"2\"]\x7d"
      [("courses", JSVal.null), ("expandedSections", JSVal.arr [JSVal.str "2"])]
      (by decide) (by decide)).2.1 (by decide),
    (load_field_defaults ⟨[(storageKey, "\x7b\"courses\":null,\"expandedSections\":[\"2\"]\x7d")], 0⟩
      "\x7b\"courses\":null,\"expandedSections\":[\"2\"]\x7d"
      [("courses", JSVal.null), ("expandedSections", JSVal.arr [JSVal.str "2"])]
      (by decide) (by decide)).2.2.2.2.2.1 [JSVal.str "2"] (by decide)⟩

/-! ### Round trip -/

set_option maxRecDepth 1000000 in
/-- C2, as stated, fails: a state whose selected id is the empty string is
saved with that id, and a fresh instance loading the stored text selects
`'sales-forecast'`. -/
theorem roundtrip_empty_selection_counterexample :
    (saveData emptySelectionState.deps (sampleIso 0) emptySelectionState
        ⟨[], 100000⟩).storage.getItem storageKey =
      some "\x7b\"courses\":\x7b\x7d,\"selectedCourse\":\"\",\"expandedSections\":[],\"lastSync\":\"0\"\x7d" ∧
    (freshInstance (saveData emptySelectionState.deps (sampleIso 0) emptySelectionState
        ⟨[], 100000⟩).storage).selectedCourse = JSVal.str "sales-forecast" ∧
    (freshInstance (saveData emptySelectionState.deps (sampleIso 0) emptySelectionState
        ⟨[], 100000⟩).storage).selectedCourse ≠ emptySelectionState.selectedCourse ∧
    (freshInstance (saveData emptySelectionState.deps (sampleIso 0) emptySelectionState
        ⟨[], 100000⟩).storage).courses = emptySelectionState.courses ∧
    (freshInstance (saveData emptySelectionState.deps (sampleIso 0) emptySelectionState
        ⟨[], 100000⟩).storage).expandedSections = emptySelectionState.expandedSections := by
  decide

namespace JSON

theorem digitChar_isDigit (d : Nat) (h : d < 10) : (digitChar d).isDigit = true := by
  interval_cases d <;> decide

theorem digitChar_toNat (d : Nat) (h : d < 10) : (digitChar d).toNat - 48 = d := by
  interval_cases d <;> decide

theorem digitChar_eq_zero (d : Nat) (h : d < 10) (h0 : digitChar d = '0') : d = 0 := by
  interval_cases d <;> first | rfl | (exfalso; revert h0; decide)

theorem natDigitsAux_acc (fuel : Nat) :
    ∀ n acc, natDigitsAux fuel n acc = natDigitsAux fuel n [] ++ acc := by
  induction fuel with
  | zero => intro n acc; rfl
  | succ f ih =>
    intro n acc
    unfold natDigitsAux
    split
    · rfl
    · rw [ih (n / 10) (digitChar (n % 10) :: acc), ih (n / 10) [digitChar (n % 10)]]
      simp

theorem natDigitsAux_succ (f n : Nat) :
    natDigitsAux (f + 1) n [] =
      if n < 10 then [digitChar n] else natDigitsAux f (n / 10) [] ++ [digitChar (n % 10)] := by
  show (if n < 10 then digitChar n :: [] else natDigitsAux f (n / 10) (digitChar (n % 10) :: [])) = _
  split
  · rfl
  · rw [natDigitsAux_acc]

theorem digitsValue_append (ds : List Char) (c : Char) :
    digitsValue (ds ++ [c]) = 10 * digitsValue ds + (c.toNat - 48) := by
  unfold digitsValue
  rw [List.foldl_append]
  rfl

/-- The digits written for `n`: not empty, all decimal digits, with value `n`,
and starting with `0` only for `n = 0`. -/
theorem natDigitsAux_spec (fuel : Nat) :
    ∀ n, n < fuel →
      natDigitsAux fuel n [] ≠ [] ∧
      (∀ c ∈ natDigitsAux fuel n [], c.isDigit = true) ∧
      digitsValue (natDigitsAux fuel n []) = n ∧
      ((natDigitsAux fuel n []).head? = some '0' → natDigitsAux fuel n [] = ['0']) := by
  induction fuel with
  | zero => intro n h; omega
  | succ f ih =>
    intro n hn
    rw [natDigitsAux_succ]
    by_cases h10 : n < 10
    · rw [if_pos h10]
      refine ⟨by simp, ?_, ?_, ?_⟩
      · intro c hc
        rw [List.mem_singleton] at hc
        rw [hc]
        exact digitChar_isDigit n h10
      · show 10 * 0 + ((digitChar n).toNat - 48) = n
        rw [digitChar_toNat n h10]
        omega
      · intro hh
        simp only [List.head?_cons, Option.some.injEq] at hh
        rw [hh]
    · rw [if_neg h10]
      have hlt : n / 10 < f := by omega
      obtain ⟨hne, hdig, hval, hzero⟩ := ih (n / 10) hlt
      have hmod : n % 10 < 10 := Nat.mod_lt n (by decide)
      refine ⟨by simp, ?_, ?_, ?_⟩
      · intro c hc
        rw [List.mem_append, List.mem_singleton] at hc
        rcases hc with hc | hc
        · exact hdig c hc
        · rw [hc]; exact digitChar_isDigit _ hmod
      · rw [digitsValue_append, hval, digitChar_toNat _ hmod]
        omega
      · intro hh
        exfalso
        have hhead : (natDigitsAux f (n / 10) []).head? = some '0' := by
          cases hl : natDigitsAux f (n / 10) [] with
          | nil => exact absurd hl hne
          | cons a t =>
            rw [hl] at hh
            simpa using hh
        have hz := hzero hhead
        rw [hz] at hval
        have : digitsValue ['0'] = 0 := by decide
        rw [this] at hval
        omega

end JSON

namespace JSON

theorem spanDigits_append (ds rest : List Char) (hds : ∀ c ∈ ds, c.isDigit = true)
    (hrest : ∀ c tail, rest = c :: tail → c.isDigit = false) :
    spanDigits (ds ++ rest) = (ds, rest) := by
  induction ds with
  | nil =>
    cases rest with
    | nil => rfl
    | cons c tail =>
      have := hrest c tail rfl
      simp only [List.nil_append, spanDigits, this]
      rfl
  | cons d ds ih =>
    have hd : d.isDigit = true := hds d (List.mem_cons_self d ds)
    have ih2 := ih (fun c hc => hds c (List.mem_cons_of_mem d hc))
    show spanDigits (d :: (ds ++ rest)) = (d :: ds, rest)
    unfold spanDigits
    rw [if_pos hd, ih2]

theorem delim_head (rest : List Char) (h : Delim rest) (c : Char) (tail : List Char)
    (hc : rest = c :: tail) : c = ',' ∨ c = ']' ∨ c = '\x7d' := by
  rcases h with h | ⟨c2, t2, h2, hor⟩
  · rw [h] at hc; cases hc
  · rw [h2] at hc
    injection hc with h1 _
    rw [← h1]
    exact hor

theorem parseNat_natDigits (n : Nat) (rest : List Char) (h : Delim rest) :
    parseNat (natDigits n ++ rest) = some (n, rest) := by
  obtain ⟨hne, hdig, hval, hzero⟩ := natDigitsAux_spec (n + 1) n (Nat.lt_succ_self n)
  have hspan : spanDigits (natDigits n ++ rest) = (natDigits n, rest) :=
    spanDigits_append _ _ hdig (fun c tail hc => by
      rcases delim_head rest h c tail hc with e | e | e <;> rw [e] <;> decide)
  unfold parseNat
  rw [hspan]
  unfold natDigits at *
  cases hl : natDigitsAux (n + 1) n [] with
  | nil => exact absurd hl hne
  | cons d ds =>
    rw [hl] at hval hzero
    simp only
    have hlead : ¬ (d = '0' ∧ ds ≠ []) := by
      rintro ⟨h0, hds⟩
      have := hzero (by rw [h0]; rfl)
      injection this with _ h2
      exact hds h2
    rw [if_neg hlead, hval]

theorem natDigits_head (n : Nat) :
    ∃ d ds, natDigits n = d :: ds ∧ d.isDigit = true := by
  obtain ⟨hne, hdig, _, _⟩ := natDigitsAux_spec (n + 1) n (Nat.lt_succ_self n)
  unfold natDigits
  cases hl : natDigitsAux (n + 1) n [] with
  | nil => exact absurd hl hne
  | cons d ds =>
    rw [hl] at hdig
    exact ⟨d, ds, rfl, hdig d (List.mem_cons_self d ds)⟩

end JSON

namespace JSON

theorem hexVal_hexDigit (d : Nat) (h : d < 16) : hexVal (hexDigit d) = some d := by
  interval_cases d <;> decide

theorem parseStrBody_cons (fuel : Nat) (c : Char) (cs : List Char) :
    parseStrBody (fuel + 1) (c :: cs) =
      if c = '"' then some ([], cs)
      else if c = '\\' then
        match cs with
        | [] => none
        | e :: rest =>
          if e = 'u' then
            match rest with
            | a :: b :: x :: d :: rest2 =>
              match hex4 a b x d with
              | some u =>
                match parseStrBody fuel (unicodeEscape u rest2).2 with
                | some (s, r) => some ((unicodeEscape u rest2).1 :: s, r)
                | none => none
              | none => none
            | _ => none
          else
            match simpleEscape e with
            | some ch =>
              match parseStrBody fuel rest with
              | some (s, r) => some (ch :: s, r)
              | none => none
            | none => none
      else if c.toNat < 32 then none
      else
        match parseStrBody fuel cs with
        | some (s, r) => some (c :: s, r)
        | none => none := by
  rfl

theorem parse_simple_escape (fuel : Nat) (e ch : Char) (tail : List Char)
    (he : e ≠ 'u') (hs : simpleEscape e = some ch) :
    parseStrBody (fuel + 1) ('\\' :: e :: tail) =
      match parseStrBody fuel tail with
      | some (s, r) => some (ch :: s, r)
      | none => none := by
  rw [parseStrBody_cons, if_neg (by decide), if_pos rfl]
  simp only [if_neg he, hs]

theorem parse_control_escape (fuel : Nat) (n : Nat) (hn : n < 32) (tail : List Char) :
    parseStrBody (fuel + 1)
        ('\\' :: 'u' :: '0' :: '0' :: hexDigit (n / 16) :: hexDigit (n % 16) :: tail) =
      match parseStrBody fuel tail with
      | some (s, r) => some (Char.ofNat n :: s, r)
      | none => none := by
  rw [parseStrBody_cons, if_neg (by decide), if_pos rfl]
  have h4 : hex4 '0' '0' (hexDigit (n / 16)) (hexDigit (n % 16)) = some n := by
    unfold hex4
    have h0 : hexVal '0' = some 0 := by decide
    rw [h0, hexVal_hexDigit (n / 16) (by omega), hexVal_hexDigit (n % 16) (by omega)]
    simp only [Option.some.injEq]
    omega
  have hu : unicodeEscape n tail = (Char.ofNat n, tail) := by
    unfold unicodeEscape
    rw [if_neg (by omega), if_neg (by omega)]
  simp only [if_pos, h4, hu]

theorem parse_quoteChar (fuel : Nat) (c : Char) (tail : List Char) :
    parseStrBody (fuel + 1) (quoteChar c ++ tail) =
      match parseStrBody fuel tail with
      | some (s, r) => some (c :: s, r)
      | none => none := by
  unfold quoteChar
  by_cases h1 : c = '"'
  · rw [if_pos h1, h1]
    exact parse_simple_escape fuel '"' '"' tail (by decide) (by decide)
  rw [if_neg h1]
  by_cases h2 : c = '\\'
  · rw [if_pos h2, h2]
    exact parse_simple_escape fuel '\\' '\\' tail (by decide) (by decide)
  rw [if_neg h2]
  by_cases h3 : c = '\x08'
  · rw [if_pos h3, h3]
    exact parse_simple_escape fuel 'b' '\x08' tail (by decide) (by decide)
  rw [if_neg h3]
  by_cases h4 : c = '\t'
  · rw [if_pos h4, h4]
    exact parse_simple_escape fuel 't' '\t' tail (by decide) (by decide)
  rw [if_neg h4]
  by_cases h5 : c = '\n'
  · rw [if_pos h5, h5]
    exact parse_simple_escape fuel 'n' '\n' tail (by decide) (by decide)
  rw [if_neg h5]
  by_cases h6 : c = '\x0c'
  · rw [if_pos h6, h6]
    exact parse_simple_escape fuel 'f' '\x0c' tail (by decide) (by decide)
  rw [if_neg h6]
  by_cases h7 : c = '\r'
  · rw [if_pos h7, h7]
    exact parse_simple_escape fuel 'r' '\r' tail (by decide) (by decide)
  rw [if_neg h7]
  by_cases h8 : c.toNat < 32
  · rw [if_pos h8]
    have := parse_control_escape fuel c.toNat h8 tail
    rw [Char.ofNat_toNat] at this
    exact this
  · rw [if_neg h8]
    show parseStrBody (fuel + 1) (c :: tail) = _
    rw [parseStrBody_cons, if_neg h1, if_neg h2, if_neg h8]

theorem quoteChar_length (c : Char) : 1 ≤ (quoteChar c).length := by
  unfold quoteChar
  repeat' split
  all_goals simp

theorem quoteChars_length (cs : List Char) : cs.length ≤ (quoteChars cs).length := by
  induction cs with
  | nil => simp [quoteChars]
  | cons c cs ih =>
    simp only [quoteChars, List.length_cons, List.length_append]
    have := quoteChar_length c
    omega

theorem parseStrBody_quoteChars (cs : List Char) :
    ∀ fuel tail, cs.length < fuel →
      parseStrBody fuel (quoteChars cs ++ '"' :: tail) = some (cs, tail) := by
  induction cs with
  | nil =>
    intro fuel tail h
    cases fuel with
    | zero => omega
    | succ f =>
      show parseStrBody (f + 1) ('"' :: tail) = _
      rw [parseStrBody_cons, if_pos rfl]
  | cons c cs ih =>
    intro fuel tail h
    cases fuel with
    | zero => omega
    | succ f =>
      show parseStrBody (f + 1) ((quoteChar c ++ quoteChars cs) ++ '"' :: tail) = _
      rw [List.append_assoc, parse_quoteChar, ih f tail (by simpa using h)]

end JSON

namespace JSON

theorem parseValue_succ (fuel : Nat) (cs : List Char) :
    parseValue (fuel + 1) cs =
      match skipWs cs with
      | [] => none
      | c :: rest =>
        if c = 'n' then (dropWord ['u', 'l', 'l'] rest).map fun r => (JSVal.null, r)
        else if c = 't' then (dropWord ['r', 'u', 'e'] rest).map fun r => (JSVal.bool true, r)
        else if c = 'f' then
          (dropWord ['a', 'l', 's', 'e'] rest).map fun r => (JSVal.bool false, r)
        else if c = '"' then
          (parseStrBody (rest.length + 1) rest).map fun p => (JSVal.str (String.mk p.1), p.2)
        else if c = '[' then
          match skipWs rest with
          | [] => none
          | c2 :: rest2 =>
            if c2 = ']' then some (JSVal.arr [], rest2)
            else (parseElems fuel rest).map fun p => (JSVal.arr p.1, p.2)
        else if c = '\x7b' then
          match skipWs rest with
          | [] => none
          | c2 :: rest2 =>
            if c2 = '\x7d' then some (JSVal.obj [], rest2)
            else (parseMembers fuel rest).map fun p => (JSVal.obj (JSObject.ofEntries p.1), p.2)
        else if c = '-' then parseNumber true rest
        else parseNumber false (c :: rest) := by
  rfl

theorem parseElems_succ (fuel : Nat) (cs : List Char) :
    parseElems (fuel + 1) cs =
      match parseValue fuel cs with
      | none => none
      | some (v, r) =>
        match skipWs r with
        | [] => none
        | c :: r2 =>
          if c = ',' then (parseElems fuel r2).map fun p => (v :: p.1, p.2)
          else if c = ']' then some ([v], r2)
          else none := by
  rfl

theorem parseMembers_succ (fuel : Nat) (cs : List Char) :
    parseMembers (fuel + 1) cs =
      match skipWs cs with
      | [] => none
      | q :: afterQ =>
        if q = '"' then
          match parseStrBody (afterQ.length + 1) afterQ with
          | none => none
          | some (k, r0) =>
            match skipWs r0 with
            | [] => none
            | colon :: r1 =>
              if colon = ':' then
                match parseValue fuel r1 with
                | none => none
                | some (v, r) =>
                  match skipWs r with
                  | [] => none
                  | c :: r2 =>
                    if c = ',' then
                      (parseMembers fuel r2).map fun p => ((String.mk k, v) :: p.1, p.2)
                    else if c = '\x7d' then some ([(String.mk k, v)], r2)
                    else none
              else none
        else none := by
  rfl

theorem skipWs_cons (c : Char) (cs : List Char) (h : NotWs c) : skipWs (c :: cs) = c :: cs := by
  obtain ⟨h1, h2, h3, h4⟩ := h
  unfold skipWs
  rw [if_neg (by
    rintro (e | e | e | e)
    · exact h1 e
    · exact h2 e
    · exact h3 e
    · exact h4 e)]

theorem skipWs_delim (rest : List Char) (h : Delim rest) : skipWs rest = rest := by
  rcases h with h | ⟨c, t, h, hor⟩
  · rw [h]; rfl
  · rw [h]
    apply skipWs_cons
    rcases hor with e | e | e <;> rw [e] <;> exact ⟨by decide, by decide, by decide, by decide⟩

theorem dropWord_append (w rest : List Char) : dropWord w (w ++ rest) = some rest := by
  unfold dropWord
  have hp : w.isPrefixOf (w ++ rest) = true := by
    rw [List.isPrefixOf_iff_prefix]
    exact List.prefix_append w rest
  rw [if_pos hp, List.drop_left]

theorem parseValue_null (fuel : Nat) (rest : List Char) :
    parseValue (fuel + 1) (serVal JSVal.null ++ rest) = some (JSVal.null, rest) := by
  show parseValue (fuel + 1) ('n' :: 'u' :: 'l' :: 'l' :: rest) = _
  rw [parseValue_succ, skipWs_cons _ _ ⟨by decide, by decide, by decide, by decide⟩]
  simp only
  rw [if_pos trivial]
  exact congrArg (Option.map fun r => (JSVal.null, r)) (dropWord_append ['u', 'l', 'l'] rest)

theorem parseValue_true (fuel : Nat) (rest : List Char) :
    parseValue (fuel + 1) (serVal (JSVal.bool true) ++ rest) = some (JSVal.bool true, rest) := by
  show parseValue (fuel + 1) ('t' :: 'r' :: 'u' :: 'e' :: rest) = _
  rw [parseValue_succ, skipWs_cons _ _ ⟨by decide, by decide, by decide, by decide⟩]
  simp only
  rw [if_neg (by decide), if_pos trivial]
  exact congrArg (Option.map fun r => (JSVal.bool true, r)) (dropWord_append ['r', 'u', 'e'] rest)

theorem parseValue_false (fuel : Nat) (rest : List Char) :
    parseValue (fuel + 1) (serVal (JSVal.bool false) ++ rest) = some (JSVal.bool false, rest) := by
  show parseValue (fuel + 1) ('f' :: 'a' :: 'l' :: 's' :: 'e' :: rest) = _
  rw [parseValue_succ, skipWs_cons _ _ ⟨by decide, by decide, by decide, by decide⟩]
  simp only
  rw [if_neg (by decide), if_neg (by decide), if_pos trivial]
  exact congrArg (Option.map fun r => (JSVal.bool false, r))
    (dropWord_append ['a', 'l', 's', 'e'] rest)

theorem parseValue_str (fuel : Nat) (s : String) (rest : List Char) :
    parseValue (fuel + 1) (serVal (JSVal.str s) ++ rest) = some (JSVal.str s, rest) := by
  show parseValue (fuel + 1) ('"' :: ((quoteChars s.data ++ ['"']) ++ rest)) = _
  rw [parseValue_succ, skipWs_cons _ _ ⟨by decide, by decide, by decide, by decide⟩]
  simp only
  rw [if_neg (by decide), if_neg (by decide), if_neg (by decide), if_pos trivial]
  simp only [List.append_assoc, List.singleton_append]
  rw [parseStrBody_quoteChars s.data _ rest (by
    have := quoteChars_length s.data
    simp only [List.length_append, List.length_cons, List.length_nil]
    omega)]
  rfl

theorem isDigit_ne (c d : Char) (h : c.isDigit = true) (hd : d.isDigit = false) : c ≠ d := by
  intro e
  rw [e, hd] at h
  cases h

theorem parseFraction_delim (rest : List Char) (h : Delim rest) :
    parseFraction rest = some ([], rest) := by
  cases rest with
  | nil => rfl
  | cons c tail =>
    have hc : ¬ (c = '.') := by
      rcases delim_head (c :: tail) h c tail rfl with e | e | e <;> rw [e] <;> decide
    unfold parseFraction
    simp only [if_neg hc]

theorem parseExponent_delim (rest : List Char) (h : Delim rest) :
    parseExponent rest = some (0, rest) := by
  cases rest with
  | nil => rfl
  | cons c tail =>
    have hc : ¬ (c = 'e' ∨ c = 'E') := by
      rcases delim_head (c :: tail) h c tail rfl with e | e | e <;> rw [e] <;> decide
    unfold parseExponent
    simp only [if_neg hc]

theorem decimalValue_integer (neg : Bool) (n : Nat) :
    decimalValue neg (n * 10 ^ ([] : List Char).length + digitsValue [])
      (0 - (([] : List Char).length : Int)) = JSVal.num (signed neg n) := by
  have hm : n * 10 ^ ([] : List Char).length + digitsValue [] = n := by
    simp [digitsValue]
  have hx : (0 : Int) - (([] : List Char).length : Int) = 0 := by simp
  rw [hm, hx]
  unfold decimalValue
  by_cases h0 : n = 0
  · rw [if_pos h0, h0]
    cases neg <;> simp [signed]
  · rw [if_neg h0, if_pos (le_refl _)]
    simp

theorem parseNumber_natDigits (neg : Bool) (n : Nat) (rest : List Char) (h : Delim rest) :
    parseNumber neg (natDigits n ++ rest) = some (JSVal.num (signed neg n), rest) := by
  unfold parseNumber
  rw [parseNat_natDigits n rest h]
  simp only
  rw [parseFraction_delim rest h]
  simp only
  rw [parseExponent_delim rest h]
  simp only
  rw [decimalValue_integer]

theorem parseValue_num (fuel : Nat) (n : Int) (rest : List Char) (hd : Delim rest) :
    parseValue (fuel + 1) (serVal (JSVal.num n) ++ rest) = some (JSVal.num n, rest) := by
  show parseValue (fuel + 1) (serNum n ++ rest) = _
  unfold serNum
  by_cases hneg : n < 0
  · rw [if_pos hneg]
    show parseValue (fuel + 1) ('-' :: (natDigits n.natAbs ++ rest)) = _
    rw [parseValue_succ, skipWs_cons _ _ ⟨by decide, by decide, by decide, by decide⟩]
    simp only
    rw [if_neg (by decide), if_neg (by decide), if_neg (by decide), if_neg (by decide),
      if_neg (by decide), if_neg (by decide), if_pos trivial, parseNumber_natDigits _ _ _ hd]
    have : signed true n.natAbs = n := by
      unfold signed
      simp only [if_true]
      omega
    rw [this]
  · rw [if_neg hneg]
    obtain ⟨d, ds, hds, hdig⟩ := natDigits_head n.natAbs
    have hp := parseNumber_natDigits false n.natAbs rest hd
    rw [hds] at hp ⊢
    show parseValue (fuel + 1) (d :: (ds ++ rest)) = _
    rw [parseValue_succ, skipWs_cons _ _ ⟨isDigit_ne _ _ hdig (by decide),
      isDigit_ne _ _ hdig (by decide), isDigit_ne _ _ hdig (by decide),
      isDigit_ne _ _ hdig (by decide)⟩]
    simp only
    rw [if_neg (isDigit_ne _ _ hdig (by decide)), if_neg (isDigit_ne _ _ hdig (by decide)),
      if_neg (isDigit_ne _ _ hdig (by decide)), if_neg (isDigit_ne _ _ hdig (by decide)),
      if_neg (isDigit_ne _ _ hdig (by decide)), if_neg (isDigit_ne _ _ hdig (by decide)),
      if_neg (isDigit_ne _ _ hdig (by decide))]
    have hp2 : parseNumber false (d :: (ds ++ rest)) =
        some (JSVal.num (signed false n.natAbs), rest) := hp
    rw [hp2]
    have : signed false n.natAbs = n := by
      unfold signed
      simp only [Bool.false_eq_true, if_false]
      omega
    rw [this]

end JSON

namespace JSON

theorem storable_ne_undefined (v : JSVal) (h : storable v = true) : v ≠ JSVal.undefined := by
  intro e
  rw [e] at h
  simp [storable] at h

theorem serElems_true_cons (x : JSVal) (xs : List JSVal) (hx : x ≠ JSVal.undefined) :
    serElems true (x :: xs) = serVal x ++ serElems false xs := by
  simp [serElems, hx]

theorem serElems_false_cons (x : JSVal) (xs : List JSVal) (hx : x ≠ JSVal.undefined) :
    serElems false (x :: xs) = ',' :: (serVal x ++ serElems false xs) := by
  simp [serElems, hx]

theorem serFields_true_cons (k : String) (v : JSVal) (rest : List (String × JSVal))
    (hv : v ≠ JSVal.undefined) :
    serFields true ((k, v) :: rest) = quote k ++ ':' :: (serVal v ++ serFields false rest) := by
  simp [serFields, hv]

theorem serFields_false_cons (k : String) (v : JSVal) (rest : List (String × JSVal))
    (hv : v ≠ JSVal.undefined) :
    serFields false ((k, v) :: rest) =
      ',' :: (quote k ++ ':' :: (serVal v ++ serFields false rest)) := by
  simp [serFields, hv]

theorem serVal_arr (xs : List JSVal) :
    serVal (JSVal.arr xs) = '[' :: (serElems true xs ++ [']']) := by
  simp [serVal]

theorem serVal_obj (kvs : List (String × JSVal)) :
    serVal (JSVal.obj kvs) = '\x7b' :: (serFields true kvs ++ ['\x7d']) := by
  simp [serVal]

/-- The first character of the text of a storable value starts a value: it is
not white space and closes neither an array nor an object. -/
theorem serVal_head (v : JSVal) (h : storable v = true) :
    ∃ c t, serVal v = c :: t ∧ NotWs c ∧ c ≠ ']' ∧ c ≠ '\x7d' := by
  cases v with
  | undefined => simp [storable] at h
  | null => exact ⟨'n', _, rfl, ⟨by decide, by decide, by decide, by decide⟩, by decide, by decide⟩
  | bool b =>
    cases b
    · exact ⟨'f', _, rfl, ⟨by decide, by decide, by decide, by decide⟩, by decide, by decide⟩
    · exact ⟨'t', _, rfl, ⟨by decide, by decide, by decide, by decide⟩, by decide, by decide⟩
  | num n =>
    show ∃ c t, serNum n = c :: t ∧ _
    unfold serNum
    by_cases hn : n < 0
    · rw [if_pos hn]
      exact ⟨'-', _, rfl, ⟨by decide, by decide, by decide, by decide⟩, by decide, by decide⟩
    · rw [if_neg hn]
      obtain ⟨d, ds, hds, hdig⟩ := natDigits_head n.natAbs
      exact ⟨d, ds, hds, ⟨isDigit_ne _ _ hdig (by decide), isDigit_ne _ _ hdig (by decide),
        isDigit_ne _ _ hdig (by decide), isDigit_ne _ _ hdig (by decide)⟩,
        isDigit_ne _ _ hdig (by decide), isDigit_ne _ _ hdig (by decide)⟩
  | frac a e => simp [storable] at h
  | str s => exact ⟨'"', _, rfl, ⟨by decide, by decide, by decide, by decide⟩, by decide, by decide⟩
  | arr xs =>
    exact ⟨'[', _, serVal_arr xs, ⟨by decide, by decide, by decide, by decide⟩, by decide,
      by decide⟩
  | obj kvs =>
    exact ⟨'\x7b', _, serVal_obj kvs, ⟨by decide, by decide, by decide, by decide⟩, by decide,
      by decide⟩

theorem serVal_length_pos (v : JSVal) (h : storable v = true) : 1 ≤ (serVal v).length := by
  obtain ⟨c, t, hc, _⟩ := serVal_head v h
  rw [hc]
  simp

end JSON

namespace JSON

theorem delim_comma (t : List Char) : Delim (',' :: t) := Or.inr ⟨',', t, rfl, Or.inl rfl⟩

theorem delim_bracket (t : List Char) : Delim (']' :: t) :=
  Or.inr ⟨']', t, rfl, Or.inr (Or.inl rfl)⟩

theorem delim_brace (t : List Char) : Delim ('\x7d' :: t) :=
  Or.inr ⟨'\x7d', t, rfl, Or.inr (Or.inr rfl)⟩

theorem delim_serElems (xs : List JSVal) (hs : storableList xs = true) (rest : List Char) :
    Delim (serElems false xs ++ ']' :: rest) := by
  cases xs with
  | nil => exact delim_bracket rest
  | cons y ys =>
    have hy : storable y = true := by
      simp only [storableList, Bool.and_eq_true] at hs
      exact hs.1
    rw [serElems_false_cons y ys (storable_ne_undefined y hy)]
    exact delim_comma _

theorem delim_serFields (kvs : List (String × JSVal)) (hs : storableFields kvs = true)
    (rest : List Char) : Delim (serFields false kvs ++ '\x7d' :: rest) := by
  cases kvs with
  | nil => exact delim_brace rest
  | cons p ps =>
    obtain ⟨k, v⟩ := p
    have hv : storable v = true := by
      simp only [storableFields, Bool.and_eq_true] at hs
      exact hs.1
    rw [serFields_false_cons k v ps (storable_ne_undefined v hv)]
    exact delim_comma _

mutual
/-- Reading the text of a storable value gives the value back and leaves the
text that follows it. -/
theorem parseValue_serVal : ∀ (v : JSVal), storable v = true → ∀ (fuel : Nat) (rest : List Char),
    2 * (serVal v).length ≤ fuel → Delim rest →
      parseValue fuel (serVal v ++ rest) = some (v, rest)
  | JSVal.undefined, h, _, _, _, _ => by simp [storable] at h
  | JSVal.null, h, fuel, rest, hf, _ => by
    have := serVal_length_pos _ h
    obtain ⟨f, rfl⟩ : ∃ f, fuel = f + 1 := ⟨fuel - 1, by omega⟩
    exact parseValue_null f rest
  | JSVal.bool true, h, fuel, rest, hf, _ => by
    have := serVal_length_pos _ h
    obtain ⟨f, rfl⟩ : ∃ f, fuel = f + 1 := ⟨fuel - 1, by omega⟩
    exact parseValue_true f rest
  | JSVal.bool false, h, fuel, rest, hf, _ => by
    have := serVal_length_pos _ h
    obtain ⟨f, rfl⟩ : ∃ f, fuel = f + 1 := ⟨fuel - 1, by omega⟩
    exact parseValue_false f rest
  | JSVal.num n, h, fuel, rest, hf, hd => by
    have := serVal_length_pos _ h
    obtain ⟨f, rfl⟩ : ∃ f, fuel = f + 1 := ⟨fuel - 1, by omega⟩
    exact parseValue_num f n rest hd
  | JSVal.frac _ _, h, _, _, _, _ => by simp [storable] at h
  | JSVal.str s, h, fuel, rest, hf, _ => by
    have := serVal_length_pos _ h
    obtain ⟨f, rfl⟩ : ∃ f, fuel = f + 1 := ⟨fuel - 1, by omega⟩
    exact parseValue_str f s rest
  | JSVal.arr xs, h, fuel, rest, hf, _ => by
    have hl : storableList xs = true := by simpa [storable] using h
    rw [serVal_arr] at hf ⊢
    simp only [List.length_cons, List.length_append, List.length_nil] at hf
    obtain ⟨f, rfl⟩ : ∃ f, fuel = f + 1 := ⟨fuel - 1, by omega⟩
    have ih := parseElems_serElems xs hl
    show parseValue (f + 1) ('[' :: (serElems true xs ++ [']'] ++ rest)) = _
    rw [parseValue_succ, skipWs_cons _ _ ⟨by decide, by decide, by decide, by decide⟩]
    simp only [List.append_assoc, List.singleton_append]
    rw [if_neg (by decide), if_neg (by decide), if_neg (by decide), if_neg (by decide),
      if_pos trivial]
    cases xs with
    | nil =>
      simp only [serElems, List.nil_append]
      rw [skipWs_cons _ _ ⟨by decide, by decide, by decide, by decide⟩]
      simp only
      rw [if_pos trivial]
    | cons x xs =>
      have hx : storable x = true := by
        simp only [storableList, Bool.and_eq_true] at hl
        exact hl.1
      have hih := ih (by simp) f rest (by omega)
      obtain ⟨c, t, hc, hws, hb, _⟩ := serVal_head x hx
      rw [hih]
      rw [serElems_true_cons x xs (storable_ne_undefined x hx), hc]
      simp only [List.cons_append]
      rw [skipWs_cons _ _ hws]
      simp only
      rw [if_neg hb]
      rfl
  | JSVal.obj kvs, h, fuel, rest, hf, _ => by
    have hl : storableFields kvs = true ∧ JSObject.ofEntries kvs = kvs := by
      simpa [storable] using h
    rw [serVal_obj] at hf ⊢
    simp only [List.length_cons, List.length_append, List.length_nil] at hf
    obtain ⟨f, rfl⟩ : ∃ f, fuel = f + 1 := ⟨fuel - 1, by omega⟩
    have ih := parseMembers_serFields kvs hl.1
    show parseValue (f + 1) ('\x7b' :: (serFields true kvs ++ ['\x7d'] ++ rest)) = _
    rw [parseValue_succ, skipWs_cons _ _ ⟨by decide, by decide, by decide, by decide⟩]
    simp only [List.append_assoc, List.singleton_append]
    rw [if_neg (by decide), if_neg (by decide), if_neg (by decide), if_neg (by decide),
      if_neg (by decide), if_pos trivial]
    cases kvs with
    | nil =>
      simp only [serFields, List.nil_append]
      rw [skipWs_cons _ _ ⟨by decide, by decide, by decide, by decide⟩]
      simp only
      rw [if_pos trivial]
    | cons p ps =>
      obtain ⟨k, v⟩ := p
      have hv : storable v = true := by
        have := hl.1
        simp only [storableFields, Bool.and_eq_true] at this
        exact this.1
      have hih := ih (by simp) f rest (by omega)
      rw [hih]
      rw [serFields_true_cons k v ps (storable_ne_undefined v hv)]
      simp only [quote, List.cons_append]
      rw [skipWs_cons _ _ ⟨by decide, by decide, by decide, by decide⟩]
      simp only
      rw [if_neg (by decide)]
      simp only [Option.map_some', hl.2]
/-- Reading the elements of a non-empty array of storable values. -/
theorem parseElems_serElems : ∀ (l : List JSVal), storableList l = true → l ≠ [] →
    ∀ (fuel : Nat) (rest : List Char), 2 * (serElems true l).length + 1 ≤ fuel →
      parseElems fuel (serElems true l ++ ']' :: rest) = some (l, rest)
  | [], _, hne, _, _, _ => absurd rfl hne
  | x :: xs, h, _, fuel, rest, hf => by
    have hx : storable x = true ∧ storableList xs = true := by
      simpa [storableList] using h
    have hxu := storable_ne_undefined x hx.1
    rw [serElems_true_cons x xs hxu] at hf ⊢
    simp only [List.length_append] at hf
    obtain ⟨f, rfl⟩ : ∃ f, fuel = f + 1 := ⟨fuel - 1, by omega⟩
    have ihv := parseValue_serVal x hx.1 f (serElems false xs ++ ']' :: rest) (by omega)
      (delim_serElems xs hx.2 rest)
    have ihl := parseElems_serElems xs hx.2
    rw [parseElems_succ, List.append_assoc, ihv]
    simp only
    rw [skipWs_delim _ (delim_serElems xs hx.2 rest)]
    cases xs with
    | nil =>
      simp only [serElems, List.nil_append]
      rw [if_neg (by decide), if_pos trivial]
    | cons y ys =>
      have hy : storable y = true := by
        have := hx.2
        simp only [storableList, Bool.and_eq_true] at this
        exact this.1
      have hyu := storable_ne_undefined y hy
      rw [serElems_false_cons y ys hyu] at hf ⊢
      simp only [List.length_cons, List.length_append] at hf
      have hrec := ihl (by simp) f rest (by
        rw [serElems_true_cons y ys hyu]
        simp only [List.length_append]
        omega)
      rw [serElems_true_cons y ys hyu] at hrec
      simp only [List.cons_append]
      rw [if_pos trivial, hrec]
      rfl
/-- Reading the members of a non-empty object with storable values. -/
theorem parseMembers_serFields : ∀ (l : List (String × JSVal)), storableFields l = true → l ≠ [] →
    ∀ (fuel : Nat) (rest : List Char), 2 * (serFields true l).length + 1 ≤ fuel →
      parseMembers fuel (serFields true l ++ '\x7d' :: rest) = some (l, rest)
  | [], _, hne, _, _, _ => absurd rfl hne
  | (k, v) :: ps, h, _, fuel, rest, hf => by
    have hv : storable v = true ∧ storableFields ps = true := by
      simpa [storableFields] using h
    have hvu := storable_ne_undefined v hv.1
    rw [serFields_true_cons k v ps hvu] at hf ⊢
    simp only [List.length_append, List.length_cons] at hf
    obtain ⟨f, rfl⟩ : ∃ f, fuel = f + 1 := ⟨fuel - 1, by omega⟩
    have ihv := parseValue_serVal v hv.1 f (serFields false ps ++ '\x7d' :: rest) (by omega)
      (delim_serFields ps hv.2 rest)
    have ihl := parseMembers_serFields ps hv.2
    have hk : (⟨k.data⟩ : String) = k := rfl
    simp only [quote, List.cons_append, List.append_assoc, List.nil_append] at hf ⊢
    rw [parseMembers_succ, skipWs_cons _ _ ⟨by decide, by decide, by decide, by decide⟩]
    simp only
    rw [if_pos trivial]
    rw [parseStrBody_quoteChars k.data _ _ (by
      have := quoteChars_length k.data
      simp only [List.length_append, List.length_cons]
      omega)]
    simp only
    rw [skipWs_cons _ _ ⟨by decide, by decide, by decide, by decide⟩]
    simp only
    rw [if_pos trivial, ihv]
    simp only
    rw [skipWs_delim _ (delim_serFields ps hv.2 rest)]
    cases ps with
    | nil =>
      simp only [serFields, List.nil_append]
      rw [if_neg (by decide), if_pos trivial, hk]
    | cons q qs =>
      obtain ⟨k2, v2⟩ := q
      have hv2 : storable v2 = true := by
        have := hv.2
        simp only [storableFields, Bool.and_eq_true] at this
        exact this.1
      have hv2u := storable_ne_undefined v2 hv2
      rw [serFields_false_cons k2 v2 qs hv2u] at hf ⊢
      simp only [List.length_cons, List.length_append] at hf
      have hrec := ihl (by simp) f rest (by
        rw [serFields_true_cons k2 v2 qs hv2u]
        simp only [List.length_append, List.length_cons]
        omega)
      rw [serFields_true_cons k2 v2 qs hv2u] at hrec
      simp only [List.cons_append]
      rw [if_pos trivial, hrec, hk]
      rfl
end

end JSON

theorem JSON.parse_stringify (v : JSVal) (h : JSON.storable v = true) :
    JSON.stringify v = some (String.mk (JSON.serVal v)) ∧
      JSON.parse (String.mk (JSON.serVal v)) = Except.ok v := by
  constructor
  · unfold JSON.stringify
    rw [if_neg (JSON.storable_ne_undefined v h)]
  · unfold JSON.parse
    have hp := JSON.parseValue_serVal v h (2 * (JSON.serVal v).length + 2) [] (by omega)
      (Or.inl rfl)
    rw [List.append_nil] at hp
    show (match JSON.parseValue (2 * (JSON.serVal v).length + 2) (JSON.serVal v) with
      | some (v, rest) =>
        if JSON.skipWs rest = [] then Except.ok v else Except.error JSError.syntaxError
      | none => Except.error JSError.syntaxError) = _
    rw [hp]
    rfl

theorem LocalStorage.getItem_put (key value : String) (items : List (String × String)) :
    (List.find? (fun p => decide (p.1 = key)) (LocalStorage.put key value items)) =
      some (key, value) := by
  induction items with
  | nil => simp [LocalStorage.put]
  | cons p ps ih =>
    unfold LocalStorage.put
    by_cases hp : p.1 = key
    · rw [if_pos hp]
      simp
    · rw [if_neg hp, List.find?_cons]
      simp only [hp, decide_False]
      exact ih

theorem LocalStorage.getItem_setItem (ls ls2 : LocalStorage) (key value : String)
    (h : ls.setItem key value = Except.ok ls2) : ls2.getItem key = some value := by
  unfold LocalStorage.setItem at h
  split at h
  · injection h with h
    rw [← h]
    unfold LocalStorage.getItem
    simp only
    rw [LocalStorage.getItem_put]
  · cases h

theorem storableList_of_strings (xs : List JSVal) (h : ∀ x ∈ xs, ∃ id, x = JSVal.str id) :
    JSON.storableList xs = true := by
  induction xs with
  | nil => rfl
  | cons x xs ih =>
    obtain ⟨id, hid⟩ := h x (List.mem_cons_self x xs)
    have := ih (fun y hy => h y (List.mem_cons_of_mem x hy))
    rw [hid]
    simp [JSON.storableList, JSON.storable, this]

theorem dataToSave_storable (deps : Deps) (stamp : String)
    (hc : JSON.storable deps.courses = true) (hs : JSON.storable deps.selectedCourse = true)
    (he : JSON.storableList deps.expandedSections.toArray = true) :
    JSON.storable (dataToSave deps stamp) = true := by
  rw [dataToSave_eq]
  have hcan : JSObject.ofEntries [("courses", deps.courses),
      ("selectedCourse", deps.selectedCourse),
      ("expandedSections", JSVal.arr deps.expandedSections.toArray),
      ("lastSync", JSVal.str stamp)] = [("courses", deps.courses),
      ("selectedCourse", deps.selectedCourse),
      ("expandedSections", JSVal.arr deps.expandedSections.toArray),
      ("lastSync", JSVal.str stamp)] := rfl
  simp [JSON.storable, JSON.storableFields, hc, hs, he, hcan]

/-- C2, amended: for every live state whose courses are a mapping that a JSON
text carries unchanged, whose selected id is a non-empty string and whose
expanded ids are strings, when `saveData` writes the snapshot successfully, a
fresh instance that loads the stored text has the same courses, the same
selected id and the same expansion set, and its `lastSync` is the time stamp
of the save. -/
theorem snapshot_roundtrip (st : AppState) (stamp : String) (ls ls2 : LocalStorage)
    (hmap : ∃ kvs, st.courses = JSVal.obj kvs)
    (hcourses : JSON.storable st.courses = true)
    (hsel : ∃ id, st.selectedCourse = JSVal.str id ∧ id ≠ "")
    (hids : ∀ x ∈ st.expandedSections.elems, ∃ id, x = JSVal.str id)
    (hwrite : ls.setItem storageKey (payloadText st.deps stamp) = Except.ok ls2) :
    (saveData st.deps stamp st ls).storage = ls2 ∧
    (freshInstance ls2).courses = st.courses ∧
    (freshInstance ls2).selectedCourse = st.selectedCourse ∧
    (freshInstance ls2).expandedSections = st.expandedSections ∧
    (freshInstance ls2).lastSync = JSVal.str stamp := by
  obtain ⟨kvs, hkvs⟩ := hmap
  obtain ⟨id, hid, hne⟩ := hsel
  have hstorSel : JSON.storable st.selectedCourse = true := by rw [hid]; rfl
  have hstorIds : JSON.storableList st.expandedSections.toArray = true :=
    storableList_of_strings _ hids
  have hstor := dataToSave_storable st.deps stamp hcourses hstorSel hstorIds
  obtain ⟨hstr, hparse⟩ := JSON.parse_stringify _ hstor
  have htext : payloadText st.deps stamp = String.mk (JSON.serVal (dataToSave st.deps stamp)) := by
    unfold payloadText
    rw [hstr]
  have hget := LocalStorage.getItem_setItem ls ls2 storageKey _ hwrite
  rw [htext] at hget
  have hload : freshInstance ls2 = hydrate (dataToSave st.deps stamp) initialState := by
    unfold freshInstance
    rw [dataToSave_eq] at hparse ⊢
    exact loadEffect_object ls2 _ _ hget hparse initialState
  rw [saveData_ok st.deps stamp st ls ls2 hwrite, hload, dataToSave_eq]
  obtain ⟨h1, h2, h3⟩ := hydrate_object [("courses", st.deps.courses),
      ("selectedCourse", st.deps.selectedCourse),
      ("expandedSections", JSVal.arr st.deps.expandedSections.toArray),
      ("lastSync", JSVal.str stamp)] initialState
  have hl1 : JSVal.lookupField "courses" [("courses", st.deps.courses),
      ("selectedCourse", st.deps.selectedCourse),
      ("expandedSections", JSVal.arr st.deps.expandedSections.toArray),
      ("lastSync", JSVal.str stamp)] = st.courses := rfl
  have hl2 : JSVal.lookupField "selectedCourse" [("courses", st.deps.courses),
      ("selectedCourse", st.deps.selectedCourse),
      ("expandedSections", JSVal.arr st.deps.expandedSections.toArray),
      ("lastSync", JSVal.str stamp)] = st.selectedCourse := rfl
  have hl3 : JSVal.lookupField "expandedSections" [("courses", st.deps.courses),
      ("selectedCourse", st.deps.selectedCourse),
      ("expandedSections", JSVal.arr st.deps.expandedSections.toArray),
      ("lastSync", JSVal.str stamp)] = JSVal.arr st.expandedSections.toArray := rfl
  have hl4 : JSVal.lookupField "lastSync" [("courses", st.deps.courses),
      ("selectedCourse", st.deps.selectedCourse),
      ("expandedSections", JSVal.arr st.deps.expandedSections.toArray),
      ("lastSync", JSVal.str stamp)] = JSVal.str stamp := rfl
  rw [hl1] at h1
  rw [hl2] at h2
  rw [hl3, hl4] at h3
  have ht1 : st.courses.truthy = true := by rw [hkvs]; rfl
  have ht2 : st.selectedCourse.truthy = true := by
    rw [hid]
    simp [JSVal.truthy, hne]
  have h3' := h3 st.expandedSections (by
    show JSSet.construct (JSVal.arr st.expandedSections.toArray) = _
    show Except.ok (JSSet.ofList st.expandedSections.toArray) = _
    rw [JSSet.ofList_toArray])
  refine ⟨rfl, ?_, ?_, h3'.1, h3'.2⟩
  · rw [h1]; unfold JSVal.orElse; rw [if_pos ht1]
  · rw [h2]; unfold JSVal.orElse; rw [if_pos ht2]

set_option maxRecDepth 1000000 in
theorem defaultCourses_storable : JSON.storable defaultCourses = true := by
  decide

set_option maxRecDepth 1000000 in
theorem toggled_payload_length :
    (payloadText toggledState.deps (sampleIso 1000)).length ≤ 5000 := by
  decide

theorem toggled_write :
    (⟨[], 100000⟩ : LocalStorage).setItem storageKey (payloadText toggledState.deps (sampleIso 1000))
      = Except.ok ⟨[(storageKey, payloadText toggledState.deps (sampleIso 1000))], 100000⟩ := by
  apply (setItem_fits _ _ _ _).trans
  · rfl
  · have := toggled_payload_length
    have hk := storageKey_length
    show LocalStorage.size [(storageKey, payloadText toggledState.deps (sampleIso 1000))] ≤ 100000
    simp only [LocalStorage.size, List.map_cons, List.map_nil, List.sum_cons, List.sum_nil]
    omega

theorem toggled_elems :
    toggledState.expandedSections.elems = [JSVal.str "1", JSVal.str "3", JSVal.str "2"] := by
  decide

/-- C2, amended, at the scenario of the specification: the defaults with
section `2` toggled are saved and reload with `1`, `3` and `2` expanded and
`sales-forecast` selected. -/
theorem snapshot_roundtrip_witness :
    ((∃ kvs, toggledState.courses = JSVal.obj kvs) ∧
      JSON.storable toggledState.courses = true ∧
      (∃ id, toggledState.selectedCourse = JSVal.str id ∧ id ≠ "") ∧
      (∀ x ∈ toggledState.expandedSections.elems, ∃ id, x = JSVal.str id) ∧
      (⟨[], 100000⟩ : LocalStorage).setItem storageKey
          (payloadText toggledState.deps (sampleIso 1000)) =
        Except.ok ⟨[(storageKey, payloadText toggledState.deps (sampleIso 1000))], 100000⟩) ∧
    ((saveData toggledState.deps (sampleIso 1000) toggledState ⟨[], 100000⟩).storage =
        ⟨[(storageKey, payloadText toggledState.deps (sampleIso 1000))], 100000⟩ ∧
      (freshInstance
          ⟨[(storageKey, payloadText toggledState.deps (sampleIso 1000))], 100000⟩).courses =
        toggledState.courses ∧
      (freshInstance
          ⟨[(storageKey, payloadText toggledState.deps (sampleIso 1000))], 100000⟩).selectedCourse =
        toggledState.selectedCourse ∧
      (freshInstance
          ⟨[(storageKey, payloadText toggledState.deps (sampleIso 1000))], 100000⟩).expandedSections =
        toggledState.expandedSections ∧
      (freshInstance
          ⟨[(storageKey, payloadText toggledState.deps (sampleIso 1000))], 100000⟩).lastSync =
        JSVal.str (sampleIso 1000)) ∧
    toggledState.expandedSections.elems = [JSVal.str "1", JSVal.str "3", JSVal.str "2"] ∧
    toggledState.selectedCourse = JSVal.str "sales-forecast" :=
  have hids : ∀ x ∈ toggledState.expandedSections.elems, ∃ id, x = JSVal.str id := by
    intro x hx
    rw [toggled_elems] at hx
    simp only [List.mem_cons, List.mem_singleton, List.not_mem_nil, or_false] at hx
    rcases hx with h | h | h
    · exact ⟨"1", h⟩
    · exact ⟨"3", h⟩
    · exact ⟨"2", h⟩
  ⟨⟨⟨_, rfl⟩, defaultCourses_storable, ⟨"sales-forecast", rfl, by decide⟩, hids, toggled_write⟩,
    snapshot_roundtrip toggledState (sampleIso 1000) ⟨[], 100000⟩
      ⟨[(storageKey, payloadText toggledState.deps (sampleIso 1000))], 100000⟩
      ⟨_, rfl⟩ defaultCourses_storable ⟨"sales-forecast", rfl, by decide⟩ hids toggled_write,
    toggled_elems, rfl⟩

/-! ### The selected course -/

theorem lookupField_mem (name : String) (kvs : List (String × JSVal))
    (h : name ∈ JSObject.keys kvs) :
    ∃ v, (name, v) ∈ kvs ∧ JSVal.lookupField name kvs = v := by
  induction kvs with
  | nil => simp [JSObject.keys] at h
  | cons p rest ih =>
    obtain ⟨k, v⟩ := p
    by_cases hk : k = name
    · refine ⟨v, ?_, ?_⟩
      · rw [hk]; exact List.mem_cons_self _ _
      · simp only [JSVal.lookupField, if_pos hk]
    · have hrest : name ∈ JSObject.keys rest := by
        simp only [JSObject.keys, List.map_cons, List.mem_cons] at h
        rcases h with h | h
        · exact absurd h.symm hk
        · exact h
      obtain ⟨w, hw1, hw2⟩ := ih hrest
      refine ⟨w, List.mem_cons_of_mem _ hw1, ?_⟩
      simp only [JSVal.lookupField, if_neg hk]
      exact hw2

theorem any_key_iff (kvs : List (String × JSVal)) (name : String) :
    kvs.any (fun p => decide (p.1 = name)) = true ↔ name ∈ JSObject.keys kvs := by
  simp only [List.any_eq_true, decide_eq_true_eq, JSObject.keys, List.mem_map]

/-- The lookup yields the course stored under the selected id when the mapping
has an entry for it. -/
theorem currentCourse_own (courses : List (String × JSVal)) (selectedCourse : String)
    (h : selectedCourse ∈ JSObject.keys courses) :
    ∃ v, (selectedCourse, v) ∈ courses ∧ currentCourse courses selectedCourse = Member.value v := by
  obtain ⟨v, hv1, hv2⟩ := lookupField_mem selectedCourse courses h
  refine ⟨v, hv1, ?_⟩
  unfold currentCourse
  rw [if_pos ((any_key_iff courses selectedCourse).2 h), hv2]

/-- Without an entry for the selected id the lookup yields `undefined`, unless
the id is the name of an inherited member, which it then yields. -/
theorem currentCourse_missing (courses : List (String × JSVal)) (selectedCourse : String)
    (h : selectedCourse ∉ JSObject.keys courses) :
    currentCourse courses selectedCourse =
      if selectedCourse ∈ objectPrototypeKeys then Member.inherited selectedCourse
      else Member.value JSVal.undefined := by
  unfold currentCourse
  have hany : ¬ (courses.any (fun p => decide (p.1 = selectedCourse)) = true) :=
    fun hc => h ((any_key_iff courses selectedCourse).1 hc)
  rw [if_neg hany]

/-- The render of the main panel throws when the lookup yields `undefined`. -/
theorem renderCourse_undefined :
    renderCourse (Member.value JSVal.undefined) = Except.error JSError.typeError := rfl

/-- C11, the code at a failing input: the stored snapshot holds the course
`kept` and the selected id `deleted`. The load applies both; the mapping has no
entry for `deleted`, the lookup yields `undefined`, and the render of the main
panel, which reads `currentCourse.type` first, throws a `TypeError`. With the
selected id `constructor` the lookup yields an inherited member instead of
`undefined`, and the render goes through with every field `undefined`. -/
theorem stale_selection_breaks_render :
    ((freshInstance ⟨[(storageKey, staleSnapshot)], 100000⟩).courses =
        JSVal.obj [("kept", JSVal.obj [("id", JSVal.str "kept"), ("title", JSVal.str "Kept"),
          ("type", JSVal.str "Manuel")])] ∧
      (freshInstance ⟨[(storageKey, staleSnapshot)], 100000⟩).selectedCourse =
        JSVal.str "deleted") ∧
    ("deleted" ∉ JSObject.keys [("kept", JSVal.obj [("id", JSVal.str "kept"),
        ("title", JSVal.str "Kept"), ("type", JSVal.str "Manuel")])] ∧
      currentCourse [("kept", JSVal.obj [("id", JSVal.str "kept"), ("title", JSVal.str "Kept"),
        ("type", JSVal.str "Manuel")])] "deleted" = Member.value JSVal.undefined ∧
      renderCourse (currentCourse [("kept", JSVal.obj [("id", JSVal.str "kept"),
        ("title", JSVal.str "Kept"), ("type", JSVal.str "Manuel")])] "deleted") =
        Except.error JSError.typeError) ∧
    ("constructor" ∉ JSObject.keys [("kept", JSVal.obj [("id", JSVal.str "kept"),
        ("title", JSVal.str "Kept"), ("type", JSVal.str "Manuel")])] ∧
      currentCourse [("kept", JSVal.obj [("id", JSVal.str "kept"), ("title", JSVal.str "Kept"),
        ("type", JSVal.str "Manuel")])] "constructor" = Member.inherited "constructor" ∧
      renderCourse (currentCourse [("kept", JSVal.obj [("id", JSVal.str "kept"),
        ("title", JSVal.str "Kept"), ("type", JSVal.str "Manuel")])] "constructor") =
        Except.ok
          { isManual := false, title := JSVal.undefined, description := JSVal.undefined,
            type := JSVal.undefined, difficulty := JSVal.undefined,
            estimatedTime := JSVal.undefined, totalDocuments := JSVal.undefined,
            progress := JSVal.undefined, chapters := JSVal.undefined }) ∧
    (currentCourse [("kept", JSVal.obj [("id", JSVal.str "kept"), ("title", JSVal.str "Kept"),
        ("type", JSVal.str "Manuel")])] "kept" =
      Member.value (JSVal.obj [("id", JSVal.str "kept"), ("title", JSVal.str "Kept"),
        ("type", JSVal.str "Manuel")]) ∧
      (renderCourse (currentCourse [("kept", JSVal.obj [("id", JSVal.str "kept"),
        ("title", JSVal.str "Kept"), ("type", JSVal.str "Manuel")])] "kept")).toOption.map
          (fun view => (view.isManual, view.title)) = some (true, JSVal.str "Kept")) := by
  decide

/-! ### Sequence and set of expanded ids -/

theorem JSSet.mem_foldl_add (xs : List JSVal) :
    ∀ (acc : JSSet) (x : JSVal), x ∈ (xs.foldl JSSet.add acc).elems ↔ x ∈ acc.elems ∨ x ∈ xs := by
  induction xs with
  | nil => intro acc x; simp
  | cons y ys ih =>
    intro acc x
    rw [List.foldl_cons, ih (acc.add y) x, JSSet.mem_add, List.mem_cons]
    tauto

/-- The members of `new Set(xs)` are the elements of `xs`. -/
theorem JSSet.mem_ofList (xs : List JSVal) (x : JSVal) :
    x ∈ (JSSet.ofList xs).elems ↔ x ∈ xs := by
  unfold JSSet.ofList
  rw [JSSet.mem_foldl_add]
  simp [JSSet.empty]

theorem JSSet.has_ofList (xs : List JSVal) (x : JSVal) :
    (JSSet.ofList xs).has x = true ↔ x ∈ xs := by
  rw [JSSet.has_iff, JSSet.mem_ofList]

theorem JSSet.ofList_nil : JSSet.ofList [] = JSSet.empty := rfl

/-- C12: the `expandedSections` array of the payload built by `saveData` holds
every member of the expansion set once and nothing else; and a stored payload
whose `expandedSections` is an array `xs` loads to a tracker in which an id is
expanded exactly when it occurs in `xs`, so that two such payloads whose arrays
have the same elements, in any order and with any repetition, load to trackers
with the same members, and the empty array loads to the empty set. -/
theorem expanded_ids_conversion :
    (∀ (deps : Deps) (stamp : String),
      (dataToSave deps stamp).getProp "expandedSections" =
          Except.ok (JSVal.arr deps.expandedSections.toArray) ∧
        deps.expandedSections.toArray.Nodup ∧
        (∀ x, x ∈ deps.expandedSections.toArray ↔ deps.expandedSections.has x = true) ∧
        (∀ x, deps.expandedSections.has x = true → deps.expandedSections.toArray.count x = 1)) ∧
    (∀ (ls : LocalStorage) (text : String) (kvs : List (String × JSVal)) (xs : List JSVal),
      ls.getItem storageKey = some text →
      JSON.parse text = Except.ok (JSVal.obj kvs) →
      JSVal.lookupField "expandedSections" kvs = JSVal.arr xs →
        (freshInstance ls).expandedSections = JSSet.ofList xs ∧
        (∀ id : String, (freshInstance ls).expandedSections.has (JSVal.str id) = true ↔
          JSVal.str id ∈ xs) ∧
        (xs = [] → (freshInstance ls).expandedSections = JSSet.empty)) ∧
    (∀ (xs ys : List JSVal), (∀ x, x ∈ xs ↔ x ∈ ys) →
      ∀ x, (JSSet.ofList xs).has x = (JSSet.ofList ys).has x) := by
  refine ⟨?_, ?_, ?_⟩
  · intro deps stamp
    refine ⟨rfl, deps.expandedSections.nodup, ?_, ?_⟩
    · intro x
      rw [JSSet.has_iff]
      rfl
    · intro x hx
      rw [JSSet.has_iff] at hx
      exact List.count_eq_one_of_mem deps.expandedSections.nodup hx
  · intro ls text kvs xs hget hparse hxs
    have hload : (freshInstance ls).expandedSections = JSSet.ofList xs := by
      unfold freshInstance
      rw [loadEffect_object ls text kvs hget hparse]
      refine ((hydrate_object kvs initialState).2.2 (JSSet.ofList xs) ?_).1
      rw [hxs]
      rfl
    refine ⟨hload, ?_, ?_⟩
    · intro id
      rw [hload, JSSet.has_ofList]
    · intro hnil
      rw [hload, hnil]
      rfl
  · intro xs ys h x
    have h1 := JSSet.has_ofList xs x
    have h2 := JSSet.has_ofList ys x
    cases hx : (JSSet.ofList xs).has x <;> cases hy : (JSSet.ofList ys).has x <;>
      simp [hx, hy, h x] at h1 h2 ⊢
    · exact h1 h2
    · exact h2 h1

/-- C12 at an instance: the stored array `["2","1","2"]` loads to a tracker
whose members are `2` and `1`. -/
theorem expanded_ids_conversion_witness :
    (⟨[(storageKey, "\x7b\"expandedSections\":[\"2\",\"1\",\"2\"]\x7d")], 0⟩ :
        LocalStorage).getItem storageKey =
      some "\x7b\"expandedSections\":[\"2\",\"1\",\"2\"]\x7d" ∧
    JSON.parse "\x7b\"expandedSections\":[\"2\",\"1\",\"2\"]\x7d" =
      Except.ok (JSVal.obj [("expandedSections",
        JSVal.arr [JSVal.str "2", JSVal.str "1", JSVal.str "2"])]) ∧
    ((freshInstance ⟨[(storageKey,
        "\x7b\"expandedSections\":[\"2\",\"1\",\"2\"]\x7d")], 0⟩).expandedSections =
      JSSet.ofList [JSVal.str "2", JSVal.str "1", JSVal.str "2"] ∧
    (∀ id : String, (freshInstance ⟨[(storageKey,
        "\x7b\"expandedSections\":[\"2\",\"1\",\"2\"]\x7d")], 0⟩).expandedSections.has
          (JSVal.str id) = true ↔
      JSVal.str id ∈ [JSVal.str "2", JSVal.str "1", JSVal.str "2"]) ∧
    ([JSVal.str "2", JSVal.str "1", JSVal.str "2"] = [] →
      (freshInstance ⟨[(storageKey,
        "\x7b\"expandedSections\":[\"2\",\"1\",\"2\"]\x7d")], 0⟩).expandedSections =
        JSSet.empty)) ∧
    (JSSet.ofList [JSVal.str "2", JSVal.str "1", JSVal.str "2"]).toArray =
      [JSVal.str "2", JSVal.str "1"] :=
  ⟨by decide, by decide,
    expanded_ids_conversion.2.1
      ⟨[(storageKey, "\x7b\"expandedSections\":[\"2\",\"1\",\"2\"]\x7d")], 0⟩
      "\x7b\"expandedSections\":[\"2\",\"1\",\"2\"]\x7d"
      [("expandedSections", JSVal.arr [JSVal.str "2", JSVal.str "1", JSVal.str "2"])]
      [JSVal.str "2", JSVal.str "1", JSVal.str "2"] (by decide) (by decide) (by decide),
    by decide⟩
